import Mathlib

/-!
Shallow embedding of `env.py` (class `SimpleEnv`), a MiniGrid-based grid
world with an inventory/crafting state machine, a process-global collection
record, an 8-beam lidar-style sensor and a reward/termination policy.

The live `SimpleEnv.step` (the second, superseding definition) and
`SimpleEnv.reset` are translated directly.  The collaborating engine
(`MiniGridEnv.step`, `place_agent`, `place_obj`) is not part of the
repository's sources; those pieces are modelled from the specification and
are marked as such.  Randomness of the engine is made explicit through
oracle parameters (chosen object positions, the chosen agent cell and
direction).
-/

open Real

/-- The six discrete actions of `SimpleEnv.Actions`
(`move_forward = 0, turn_left = 1, turn_right = 2, toggle = 3,
craft_sword = 4, open_chest = 5`). -/
inductive Act
  | moveForward
  | turnLeft
  | turnRight
  | toggle
  | craftSword
  | openChest
deriving DecidableEq

/-- World objects occupying grid cells: `Resource` (a `Ball` subclass
carrying a `resource_name`), `Box` (with a color; purple is the chest and
blue the crafting table) and walls. -/
inductive WObj
  | resource (resource_name : String)
  | box (color : String)
  | wall
deriving DecidableEq

/-- Modelled from the spec: none of the object kinds placed by this
environment permits overlap (`can_overlap` of the engine's `Ball`, `Box`
and `Wall` classes is `False`). -/
def WObj.canOverlap : WObj → Bool := fun _ => false

/-- `self.resource_names` from `SimpleEnv.__init__`. -/
def resourceNames : List String :=
  ["Iron Ore", "Silver Ore", "Platinum Ore", "Gold Ore", "Tree", "Chest",
   "Crafting Table", "Wall"]

/-- The state of a `SimpleEnv` instance: grid dimensions and contents, the
agent's pose, the inventory ledger, the per-episode sword flag, the
process-global collection record, the episode and step counters and the
configuration fields fixed at construction time. -/
structure SEnv where
  width : ℕ
  height : ℕ
  grid : ℤ × ℤ → Option WObj
  agentPos : ℤ × ℤ
  agentDir : Fin 4
  inventory : List String
  swordCrafted : Bool
  collectedResourcesGlobal : Finset String
  currentEpisode : ℕ
  maxRewardEpisodes : ℕ
  stepCount : ℕ
  maxSteps : ℕ
  agentStartPos : Option (ℤ × ℤ)
  agentStartDir : Fin 4

/-- The engine's `DIR_TO_VEC`: direction 0 is east (+x), 1 south (+y),
2 west (-x), 3 north (-y). -/
def dirVec : Fin 4 → ℤ × ℤ
  | ⟨0, _⟩ => (1, 0)
  | ⟨1, _⟩ => (0, 1)
  | ⟨2, _⟩ => (-1, 0)
  | ⟨3, _⟩ => (0, -1)

/-- `self.front_pos`: the cell the agent faces. -/
def frontPos (s : SEnv) : ℤ × ℤ :=
  (s.agentPos.1 + (dirVec s.agentDir).1, s.agentPos.2 + (dirVec s.agentDir).2)

/-- Modelled from the spec: the collaborating engine's step
(`MiniGridEnv.step`), which the live `SimpleEnv.step` falls through to for
actions it does not handle itself.  It increments the step counter once per
call, applies the movement/turn semantics for the three movement actions
(moving forward is blocked unless the target cell is empty, turning changes
the orientation by 90 degrees), returns reward 0 and `terminated = False`,
and signals truncation by the step-count cutoff.  Inventory, sword flag and
the global collection record are never touched by the engine. -/
def engineStep (s : SEnv) (a : Act) : SEnv × ℤ × Bool × Bool :=
  let s1 : SEnv := { s with stepCount := s.stepCount + 1 }
  let s2 : SEnv :=
    match a with
    | Act.moveForward =>
        if s1.grid (frontPos s1) = none then { s1 with agentPos := frontPos s1 } else s1
    | Act.turnLeft => { s1 with agentDir := ⟨(s1.agentDir.val + 3) % 4, by omega⟩ }
    | Act.turnRight => { s1 with agentDir := ⟨(s1.agentDir.val + 1) % 4, by omega⟩ }
    | _ => s1
  (s2, 0, false, decide (s2.maxSteps ≤ s2.stepCount))

/-- The live `SimpleEnv.step` (the second, superseding definition).  The
observation assembly is kept separate (`get_lidar_observation`,
`get_inventory_observation` below are pure functions of the state); `step`
returns the successor state together with the reward, the `terminated` flag
and the `truncated` flag. -/
def SEnv.step (s : SEnv) (a : Act) : SEnv × ℤ × Bool × Bool :=
  match a with
  | Act.craftSword =>
      match s.grid (frontPos s) with
      | some (WObj.box c) =>
          if c = "blue" then
            if ("Tree") ∈ s.inventory ∧ ("Iron Ore") ∈ s.inventory ∧ s.swordCrafted = false then
              ({ s with
                  inventory := ((s.inventory.erase ("Tree")).erase ("Iron Ore")) ++ [("Iron Sword")],
                  swordCrafted := true },
                -1 + (if s.currentEpisode < s.maxRewardEpisodes then 50 else 0), false, false)
            else (s, -1 + -1, false, false)
          else engineStep s a
      | _ => engineStep s a
  | Act.openChest =>
      match s.grid (frontPos s) with
      | some (WObj.box c) =>
          if c = "purple" then
            if ("Iron Sword") ∈ s.inventory then
              ({ s with inventory := s.inventory ++ [("Treasure")] }, -1 + 1000, true, false)
            else (s, -1 + -1, false, false)
          else engineStep s a
      | _ => engineStep s a
  | Act.toggle =>
      match s.grid (frontPos s) with
      | some (WObj.resource n) =>
          if n ∈ s.collectedResourcesGlobal then (s, -1 + -1, false, false)
          else
            ({ s with
                collectedResourcesGlobal := insert n s.collectedResourcesGlobal,
                inventory := s.inventory ++ [n],
                grid := Function.update s.grid (frontPos s) none },
              -1 + 1, false, false)
      | _ => engineStep s a
  | _ => engineStep s a

/-- The seven objects placed by `_gen_grid`, in placement order. -/
def genObjects : List WObj :=
  [WObj.resource ("Iron Ore"), WObj.resource ("Silver Ore"),
   WObj.resource ("Platinum Ore"), WObj.resource ("Gold Ore"),
   WObj.resource ("Tree"), WObj.box ("purple"), WObj.box ("blue")]

/-- The engine's `wall_rect(0, 0, width, height)`: the outer ring of the
grid is stamped as walls. -/
def wallRing (w h : ℕ) : ℤ × ℤ → Option WObj := fun p =>
  if (0 ≤ p.1 ∧ p.1 < (w : ℤ) ∧ 0 ≤ p.2 ∧ p.2 < (h : ℤ)) ∧
      (p.1 = 0 ∨ p.1 = (w : ℤ) - 1 ∨ p.2 = 0 ∨ p.2 = (h : ℤ) - 1) then
    some WObj.wall
  else none

/-- The grid contents after `_gen_grid` has stamped the walls and placed
the seven objects.  `place_obj` draws random free cells; the drawn cells
are passed in explicitly as the oracle list `objPos` (modelled from the
spec: objects land on empty cells chosen by the engine's random placement
primitive). -/
def placedGrid (w h : ℕ) (objPos : List (ℤ × ℤ)) : ℤ × ℤ → Option WObj :=
  (objPos.zip genObjects).foldl (fun g po => Function.update g po.1 (some po.2)) (wallRing w h)

/-- The interior cells in the fixed deterministic scan order of
`_gen_grid`'s list comprehension: `x` from `1` to `width - 2` in the outer
loop, `y` from `1` to `height - 2` in the inner loop. -/
def interiorCells (w h : ℕ) : List (ℤ × ℤ) :=
  (List.range' 1 (w - 2)).flatMap fun (x : ℕ) =>
    (List.range' 1 (h - 2)).map fun (y : ℕ) => ((x : ℤ), (y : ℤ))

/-- `SimpleEnv._gen_grid`: build walls, place the seven objects, then
resolve the agent's provisional position.  If a preferred start cell is
configured and occupied by a non-overlappable object, the first empty
interior cell of the fixed scan is used instead (and recorded as the new
preferred start); if none exists, grid generation fails with the
`RuntimeError` message.  If no preferred start is configured, the code
delegates to the engine's random `place_agent`, which `reset` invokes
afterwards anyway. -/
def genGrid (s : SEnv) (objPos : List (ℤ × ℤ)) : Except String SEnv :=
  let g := placedGrid s.width s.height objPos
  match s.agentStartPos with
  | some p =>
      match g p with
      | some o =>
          if o.canOverlap then
            Except.ok { s with grid := g, agentPos := p, agentDir := s.agentStartDir }
          else
            match (interiorCells s.width s.height).filter (fun q => (g q).isNone) with
            | [] => Except.error ("No valid starting position available for the agent.")
            | q :: _ =>
                Except.ok
                  { s with grid := g, agentStartPos := some q, agentPos := q, agentDir := s.agentStartDir }
      | none => Except.ok { s with grid := g, agentPos := p, agentDir := s.agentStartDir }
  | none => Except.ok { s with grid := g }

/-- `SimpleEnv.reset`: clear the inventory and the sword flag, bump the
episode counter, rebuild the grid, then re-place the agent via the engine's
random `place_agent` (modelled from the spec as the oracle `agentCell`,
`agentDirPick`) and zero the step counter.  The global collection record is
not touched. -/
def SEnv.reset (s : SEnv) (objPos : List (ℤ × ℤ)) (agentCell : ℤ × ℤ)
    (agentDirPick : Fin 4) : Except String SEnv :=
  let s0 : SEnv :=
    { s with inventory := [], swordCrafted := false, currentEpisode := s.currentEpisode + 1 }
  match genGrid s0 objPos with
  | Except.error e => Except.error e
  | Except.ok s1 =>
      Except.ok { s1 with agentPos := agentCell, agentDir := agentDirPick, stepCount := 0 }

/-- C9: if the agent faces the crafting table (blue box) but the craft
preconditions fail, or faces the chest (purple box) without an Iron Sword,
the step returns normally with total reward `-2`, `terminated = false`,
and the state (ledger, grid, sword flag, global record) unchanged. -/
theorem claim_C9_soft_failures (s : SEnv) :
    (∀ c, s.grid (frontPos s) = some (WObj.box c) → c = "blue" →
      ¬(("Tree") ∈ s.inventory ∧ ("Iron Ore") ∈ s.inventory ∧ s.swordCrafted = false) →
      s.step Act.craftSword = (s, -2, false, false)) ∧
    (∀ c, s.grid (frontPos s) = some (WObj.box c) → c = "purple" →
      ("Iron Sword") ∉ s.inventory →
      s.step Act.openChest = (s, -2, false, false)) := by
  constructor
  · intro c hface hc hfail
    subst hc
    simp only [SEnv.step, hface, if_pos rfl, if_neg hfail]
    rfl
  · intro c hface hc hsword
    subst hc
    simp only [SEnv.step, hface, if_pos rfl, if_neg hsword]
    rfl

/-- A concrete state facing the crafting table with an empty inventory
(used to witness C9). -/
def envC9 : SEnv :=
  { width := 6, height := 6,
    grid := fun p => if p = (2, 1) then some (WObj.box ("blue"))
            else if p = (1, 2) then some (WObj.box ("purple")) else none,
    agentPos := (1, 1), agentDir := 0, inventory := [], swordCrafted := false,
    collectedResourcesGlobal := ∅, currentEpisode := 1, maxRewardEpisodes := 20,
    stepCount := 0, maxSteps := 100, agentStartPos := some (1, 1), agentStartDir := 0 }

/-- Witness for C9 at a concrete state: facing the blue box with no
materials the craft attempt returns reward -2 and leaves the state alone;
turning to the purple box without a sword behaves likewise. -/
theorem claim_C9_soft_failures_witness :
    envC9.step Act.craftSword = (envC9, -2, false, false) ∧
    (envC9.step Act.turnRight).1.step Act.openChest
      = ((envC9.step Act.turnRight).1, -2, false, false) := by
  constructor
  · exact (claim_C9_soft_failures envC9).1 ("blue") (by decide) rfl (by decide)
  · exact (claim_C9_soft_failures ((envC9.step Act.turnRight).1)).2 ("purple")
      (by decide) rfl (by decide)

/-- C2: facing the chest (purple box), an `open_chest` step terminates the
episode exactly when the Iron Sword is in the ledger; on success it appends
"Treasure" to the ledger and the reward is exactly `1000 + (-1) = 999`. -/
theorem claim_C2_open_chest (s : SEnv)
    (hface : s.grid (frontPos s) = some (WObj.box ("purple"))) :
    ((s.step Act.openChest).2.2.1 = true ↔ ("Iron Sword") ∈ s.inventory) ∧
    (("Iron Sword") ∈ s.inventory →
      (s.step Act.openChest).1.inventory = s.inventory ++ [("Treasure")] ∧
      (s.step Act.openChest).2.1 = 999) := by
  by_cases hs : ("Iron Sword") ∈ s.inventory
  · simp only [SEnv.step, hface, if_pos rfl, if_pos hs]
    refine ⟨by simp [hs], fun _ => ⟨rfl, by norm_num⟩⟩
  · simp only [SEnv.step, hface, if_pos rfl, if_neg hs]
    exact ⟨by simp [hs], fun h => absurd h hs⟩

/-- A concrete state facing the chest while holding the Iron Sword. -/
def envC2 : SEnv :=
  { envC9 with agentDir := 1, inventory := [("Iron Sword")], swordCrafted := true }

/-- Witness for C2: at `envC2` (facing the purple box, Iron Sword held) the
step terminates, appends "Treasure" and yields reward 999; a state with an
empty ledger does not terminate. -/
theorem claim_C2_open_chest_witness :
    (envC2.step Act.openChest).2.2.1 = true ∧
    (envC2.step Act.openChest).1.inventory = [("Iron Sword"), ("Treasure")] ∧
    (envC2.step Act.openChest).2.1 = 999 ∧
    ({ envC2 with inventory := [] }.step Act.openChest).2.2.1 = false := by
  refine ⟨?_, ?_, ?_, ?_⟩
  · exact ((claim_C2_open_chest envC2 (by decide)).1).2 (by decide)
  · exact ((claim_C2_open_chest envC2 (by decide)).2 (by decide)).1
  · exact ((claim_C2_open_chest envC2 (by decide)).2 (by decide)).2
  · have h := (claim_C2_open_chest ({ envC2 with inventory := [] }) (by decide)).1
    by_contra hc
    simp only [Bool.not_eq_false] at hc
    exact absurd (h.1 hc) (by decide)

/-- The engine's fall-through step never touches the inventory, the sword
flag, the global collection record or the grid, and increments the step
counter exactly once. -/
theorem engineStep_fields (s : SEnv) (a : Act) :
    (engineStep s a).1.inventory = s.inventory ∧
    (engineStep s a).1.swordCrafted = s.swordCrafted ∧
    (engineStep s a).1.collectedResourcesGlobal = s.collectedResourcesGlobal ∧
    (engineStep s a).1.grid = s.grid ∧
    (engineStep s a).1.stepCount = s.stepCount + 1 := by
  cases a <;> simp only [engineStep] <;> (try split) <;> simp

/-- Successful grid generation never touches the inventory, the sword flag,
the collection record, the episode index or the step counter. -/
theorem genGrid_fields (s : SEnv) (objPos : List (ℤ × ℤ)) {s' : SEnv}
    (h : genGrid s objPos = Except.ok s') :
    s'.collectedResourcesGlobal = s.collectedResourcesGlobal ∧
    s'.inventory = s.inventory ∧ s'.swordCrafted = s.swordCrafted ∧
    s'.currentEpisode = s.currentEpisode ∧
    s'.grid = placedGrid s.width s.height objPos := by
  unfold genGrid at h
  dsimp only at h
  split at h
  · split at h
    · split at h
      · cases h; exact ⟨rfl, rfl, rfl, rfl, rfl⟩
      · split at h
        · cases h
        · cases h; exact ⟨rfl, rfl, rfl, rfl, rfl⟩
    · cases h; exact ⟨rfl, rfl, rfl, rfl, rfl⟩
  · cases h; exact ⟨rfl, rfl, rfl, rfl, rfl⟩

/-- A successful reset clears the inventory and the sword flag, bumps the
episode index, zeroes the step counter and keeps the collection record. -/
theorem reset_fields (s : SEnv) (objPos : List (ℤ × ℤ)) (c : ℤ × ℤ) (d : Fin 4)
    {s' : SEnv} (h : s.reset objPos c d = Except.ok s') :
    s'.collectedResourcesGlobal = s.collectedResourcesGlobal ∧
    s'.inventory = [] ∧ s'.swordCrafted = false ∧
    s'.currentEpisode = s.currentEpisode + 1 ∧ s'.stepCount = 0 ∧
    s'.grid = placedGrid s.width s.height objPos := by
  unfold SEnv.reset at h
  dsimp only at h
  split at h
  · cases h
  · rename_i s1 hgen
    cases h
    have hf := genGrid_fields _ objPos hgen
    exact ⟨hf.1, hf.2.1, hf.2.2.1, hf.2.2.2.1, rfl, hf.2.2.2.2⟩

/-- C7: along any single `step` call and any successful `reset` call, the
global collection record only grows: every kind present beforehand is still
present afterwards, and reset in particular never clears it. -/
theorem claim_C7_global_record_monotone (s : SEnv) :
    (∀ a : Act, s.collectedResourcesGlobal ⊆ (s.step a).1.collectedResourcesGlobal) ∧
    (∀ (objPos : List (ℤ × ℤ)) (c : ℤ × ℤ) (d : Fin 4) (s' : SEnv),
      s.reset objPos c d = Except.ok s' →
      s.collectedResourcesGlobal ⊆ s'.collectedResourcesGlobal) := by
  constructor
  · intro a
    have hE : ∀ b : Act, s.collectedResourcesGlobal ⊆
        (engineStep s b).1.collectedResourcesGlobal := by
      intro b; rw [(engineStep_fields s b).2.2.1]
    cases a
    case craftSword =>
      rcases hf : s.grid (frontPos s) with _ | o
      · simp only [SEnv.step, hf]; exact hE _
      · cases o with
        | resource n => simp only [SEnv.step, hf]; exact hE _
        | box c =>
            simp only [SEnv.step, hf]
            split
            · split
              · exact Finset.Subset.refl _
              · exact Finset.Subset.refl _
            · exact hE _
        | wall => simp only [SEnv.step, hf]; exact hE _
    case openChest =>
      rcases hf : s.grid (frontPos s) with _ | o
      · simp only [SEnv.step, hf]; exact hE _
      · cases o with
        | resource n => simp only [SEnv.step, hf]; exact hE _
        | box c =>
            simp only [SEnv.step, hf]
            split
            · split
              · exact Finset.Subset.refl _
              · exact Finset.Subset.refl _
            · exact hE _
        | wall => simp only [SEnv.step, hf]; exact hE _
    case toggle =>
      rcases hf : s.grid (frontPos s) with _ | o
      · simp only [SEnv.step, hf]; exact hE _
      · cases o with
        | resource n =>
            simp only [SEnv.step, hf]
            split
            · exact Finset.Subset.refl _
            · exact Finset.subset_insert _ _
        | box c => simp only [SEnv.step, hf]; exact hE _
        | wall => simp only [SEnv.step, hf]; exact hE _
    case moveForward => simp only [SEnv.step]; exact hE _
    case turnLeft => simp only [SEnv.step]; exact hE _
    case turnRight => simp only [SEnv.step]; exact hE _
  · intro objPos c d s' h
    rw [(reset_fields s objPos c d h).1]

/-- Concrete oracle positions used by several concrete resets: the five
resources at distinct interior cells, then the chest and the crafting
table. -/
def objPosW : List (ℤ × ℤ) := [(3, 1), (1, 3), (2, 3), (3, 3), (2, 1), (4, 4), (4, 1)]

/-- Extract the state of a successful reset (the error case never occurs in
the concrete instantiations below). -/
def okOr (e : Except String SEnv) (d : SEnv) : SEnv :=
  match e with
  | Except.ok s => s
  | Except.error _ => d

/-- The state after a concrete successful reset of `envC9`. -/
def envReset : SEnv := okOr (envC9.reset objPosW (1, 1) 0) envC9

/-- Witness for C7: a concrete toggle step that inserts a new kind keeps
the previously collected kind, and a concrete successful reset keeps it
too. -/
theorem claim_C7_global_record_monotone_witness :
    ({ envC9 with collectedResourcesGlobal := {("Tree")} }.step
        Act.moveForward).1.collectedResourcesGlobal = {("Tree")} ∧
    envReset.collectedResourcesGlobal = envC9.collectedResourcesGlobal := by
  constructor
  · have h := (claim_C7_global_record_monotone
      ({ envC9 with collectedResourcesGlobal := {("Tree")} })).1 Act.moveForward
    have h2 : ({ envC9 with collectedResourcesGlobal := {("Tree")} }.step
        Act.moveForward).1.collectedResourcesGlobal ⊆ {("Tree")} := by decide
    exact Finset.Subset.antisymm h2 h
  · have h := (claim_C7_global_record_monotone envC9).2 objPosW (1, 1) 0 envReset rfl
    have h2 : envReset.collectedResourcesGlobal ⊆ envC9.collectedResourcesGlobal := by decide
    exact Finset.Subset.antisymm h2 h

/-- A concrete state facing a Tree resource whose kind is already in the
global collection record. -/
def envC3 : SEnv :=
  { envC9 with
    grid := fun p => if p = (2, 1) then some (WObj.resource ("Tree")) else none,
    collectedResourcesGlobal := {("Tree")} }

/-- Counterexample to C3 as stated: at `envC3` the agent faces a Tree whose
kind is already in the GlobalCollectionRecord; the toggle step yields the
claimed reward delta of -1 (total -2) but, contrary to the claim, appends
nothing to the ledger (which stays empty) and leaves the object on the
grid. -/
theorem claim_C3_counterexample :
    envC3.grid (frontPos envC3) = some (WObj.resource ("Tree")) ∧
    ("Tree") ∈ envC3.collectedResourcesGlobal ∧
    (envC3.step Act.toggle).2.1 = -2 ∧
    (envC3.step Act.toggle).1.inventory = [] ∧
    ("Tree") ∉ (envC3.step Act.toggle).1.inventory ∧
    (envC3.step Act.toggle).1.grid (frontPos envC3) = some (WObj.resource ("Tree")) := by
  decide

/-- C3 (amended): facing a Resource whose kind is already in the global
record, a toggle step leaves the whole state unchanged (nothing is
appended, the object stays on the grid) with reward delta -1 over the base;
facing a Resource whose kind is not yet in the record, the step records the
kind, appends it to the ledger, removes the object from the grid and yields
reward delta +1, so the first-ever collection of a kind (across all
episodes of the process) yields +1 and every later toggle on that kind
yields -1 without collecting. -/
theorem claim_C3_amended (s : SEnv) (n : String)
    (hface : s.grid (frontPos s) = some (WObj.resource n)) :
    (n ∈ s.collectedResourcesGlobal → s.step Act.toggle = (s, -2, false, false)) ∧
    (n ∉ s.collectedResourcesGlobal →
      (s.step Act.toggle).1.inventory = s.inventory ++ [n] ∧
      (s.step Act.toggle).1.grid (frontPos s) = none ∧
      (s.step Act.toggle).1.collectedResourcesGlobal = insert n s.collectedResourcesGlobal ∧
      (s.step Act.toggle).2.1 = -1 + 1 ∧
      (s.step Act.toggle).2.2.1 = false) := by
  constructor
  · intro hmem
    simp only [SEnv.step, hface, if_pos hmem]
    rfl
  · intro hmem
    simp [SEnv.step, hface, if_neg hmem, Function.update_same]

/-- Witness for C3 (amended) at concrete states: the already-collected case
at `envC3`, and the first-collection case at the same state with an empty
global record. -/
theorem claim_C3_amended_witness :
    envC3.step Act.toggle = (envC3, -2, false, false) ∧
    ({ envC3 with collectedResourcesGlobal := ∅ }.step Act.toggle).1.inventory = [("Tree")] ∧
    ({ envC3 with collectedResourcesGlobal := ∅ }.step Act.toggle).2.1 = -1 + 1 := by
  refine ⟨(claim_C3_amended envC3 ("Tree") (by decide)).1 (by decide), ?_, ?_⟩
  · exact (((claim_C3_amended ({ envC3 with collectedResourcesGlobal := ∅ }) ("Tree")
      (by decide)).2 (by decide)).1).trans (by decide)
  · exact ((claim_C3_amended ({ envC3 with collectedResourcesGlobal := ∅ }) ("Tree")
      (by decide)).2 (by decide)).2.2.2.1

/-- Whether the live `step` handles the action in one of its own branches
(craft facing the crafting table, open facing the chest, toggle facing a
resource) instead of falling through to the engine. -/
def customHandled (s : SEnv) (a : Act) : Bool :=
  match a, s.grid (frontPos s) with
  | Act.craftSword, some (WObj.box c) => c = "blue"
  | Act.openChest, some (WObj.box c) => c = "purple"
  | Act.toggle, some (WObj.resource _) => true
  | _, _ => false

/-- Counterexample to C4 as stated: at `envC9` (agent facing the crafting
table) a `craft_sword` step returns through the custom branch and leaves
the step counter at 0 instead of incrementing it. -/
theorem claim_C4_counterexample :
    envC9.stepCount = 0 ∧
    (envC9.step Act.craftSword).1.stepCount ≠ envC9.stepCount + 1 ∧
    (envC9.step Act.craftSword).1.stepCount = 0 := by
  decide

/-- A step handled by one of the custom branches returns early and leaves
the step counter unchanged. -/
theorem step_stepCount_custom (s : SEnv) (a : Act) (h : customHandled s a = true) :
    (s.step a).1.stepCount = s.stepCount := by
  cases a
  all_goals rcases hf : s.grid (frontPos s) with _ | o
  all_goals try (cases o)
  all_goals simp [customHandled, hf] at h
  · simp only [SEnv.step, hf]
    split <;> rfl
  · subst h
    simp only [SEnv.step, hf, if_true]
    split <;> rfl
  · subst h
    simp only [SEnv.step, hf, if_true]
    split <;> rfl

/-- A step that is not custom-handled falls through to the engine and
increments the step counter exactly once. -/
theorem step_stepCount_fall (s : SEnv) (a : Act) (h : customHandled s a = false) :
    (s.step a).1.stepCount = s.stepCount + 1 := by
  have hE : ∀ b : Act, (engineStep s b).1.stepCount = s.stepCount + 1 := fun b =>
    (engineStep_fields s b).2.2.2.2
  cases a
  all_goals rcases hf : s.grid (frontPos s) with _ | o
  all_goals try (cases o)
  all_goals simp [customHandled, hf] at h
  all_goals try (simp only [SEnv.step, hf]; exact hE _)
  · simp only [SEnv.step, hf, if_neg h]
    exact hE _
  · simp only [SEnv.step, hf, if_neg h]
    exact hE _

/-- C4 (amended): every reset zeroes the step counter, but a step call
increments it exactly once only when it falls through to the engine; the
three custom-handled branches (craft facing the crafting table, open facing
the chest, toggle facing a resource) return early and leave the step
counter unchanged. -/
theorem claim_C4_amended (s : SEnv) (a : Act) :
    (s.step a).1.stepCount
      = (if customHandled s a then s.stepCount else s.stepCount + 1) ∧
    (∀ (objPos : List (ℤ × ℤ)) (c : ℤ × ℤ) (d : Fin 4) (s' : SEnv),
      s.reset objPos c d = Except.ok s' → s'.stepCount = 0) := by
  refine ⟨?_, fun objPos c d s' h => (reset_fields s objPos c d h).2.2.2.2.1⟩
  cases hch : customHandled s a
  · rw [if_neg Bool.false_ne_true]
    exact step_stepCount_fall s a hch
  · rw [if_pos rfl]
    exact step_stepCount_custom s a hch

/-- Witness for C4 (amended) at concrete inputs: a custom-handled craft
step keeps the counter, a fall-through movement step increments it, and a
concrete successful reset zeroes it. -/
theorem claim_C4_amended_witness :
    (envC9.step Act.craftSword).1.stepCount
      = (if customHandled envC9 Act.craftSword then envC9.stepCount else envC9.stepCount + 1) ∧
    ({ envC9 with stepCount := 7 }.step Act.moveForward).1.stepCount
      = (if customHandled ({ envC9 with stepCount := 7 }) Act.moveForward
          then 7 else 7 + 1) ∧
    envReset.stepCount = 0 := by
  refine ⟨(claim_C4_amended envC9 Act.craftSword).1, ?_, ?_⟩
  · exact (claim_C4_amended ({ envC9 with stepCount := 7 }) Act.moveForward).1
  · exact (claim_C4_amended envC9 Act.moveForward).2 objPosW (1, 1) 0 envReset rfl

/-- The five collectible resource kind names placed by `_gen_grid`. -/
def kindNames : List String :=
  ["Iron Ore", "Silver Ore", "Platinum Ore", "Gold Ore", "Tree"]

/-- Every resource object on the grid carries one of the five placed kind
names. -/
def GridWF (g : ℤ × ℤ → Option WObj) : Prop :=
  ∀ p n, g p = some (WObj.resource n) → n ∈ kindNames

/-- The state invariant maintained by construction, `step` and `reset`:
resources on the grid are well-named; every ledger item is the crafted
sword, the terminal treasure, or a collected kind recorded in the global
record; every item other than "Treasure" occurs at most once in the ledger;
and the Iron Sword is only held after a successful craft of this episode. -/
def StateInv (s : SEnv) : Prop :=
  GridWF s.grid ∧
  (∀ r ∈ s.inventory,
    r = "Iron Sword" ∨ r = "Treasure" ∨ (r ∈ kindNames ∧ r ∈ s.collectedResourcesGlobal)) ∧
  (∀ r : String, r ≠ "Treasure" → s.inventory.count r ≤ 1) ∧
  (("Iron Sword") ∈ s.inventory → s.swordCrafted = true)

/-- States reachable from a freshly constructed environment (`__init__`:
empty grid, empty inventory, cleared flags and counters) through any
sequence of `step` calls and successful `reset` calls within one process
lifetime. -/
inductive Reachable : SEnv → Prop
  | init (w hh maxR maxS : ℕ) (pos : ℤ × ℤ) (d : Fin 4) (sp : Option (ℤ × ℤ)) (sd : Fin 4) :
      Reachable
        { width := w, height := hh, grid := fun _ => none, agentPos := pos,
          agentDir := d, inventory := [], swordCrafted := false,
          collectedResourcesGlobal := ∅, currentEpisode := 0, maxRewardEpisodes := maxR,
          stepCount := 0, maxSteps := maxS, agentStartPos := sp, agentStartDir := sd }
  | stepR {s : SEnv} (a : Act) : Reachable s → Reachable (s.step a).1
  | resetR {s s' : SEnv} (objPos : List (ℤ × ℤ)) (c : ℤ × ℤ) (d : Fin 4) :
      Reachable s → s.reset objPos c d = Except.ok s' → Reachable s'

theorem stateInv_engineStep (s : SEnv) (a : Act) (h : StateInv s) :
    StateInv (engineStep s a).1 := by
  have hf := engineStep_fields s a
  unfold StateInv GridWF
  rw [hf.1, hf.2.1, hf.2.2.1, hf.2.2.2.1]
  exact h

theorem gridWF_update (g : ℤ × ℤ → Option WObj) (hg : GridWF g) (q : ℤ × ℤ)
    (o : Option WObj) (ho : ∀ n, o = some (WObj.resource n) → n ∈ kindNames) :
    GridWF (Function.update g q o) := by
  intro p n hp
  by_cases hpq : p = q
  · subst hpq
    rw [Function.update_same] at hp
    exact ho n hp
  · rw [Function.update_noteq hpq] at hp
    exact hg p n hp

theorem gridWF_wallRing (w h : ℕ) : GridWF (wallRing w h) := by
  intro p n hp
  unfold wallRing at hp
  split at hp <;> simp_all

theorem gridWF_foldl (L : List ((ℤ × ℤ) × WObj)) :
    ∀ g : ℤ × ℤ → Option WObj, GridWF g →
    (∀ po ∈ L, ∀ n, po.2 = WObj.resource n → n ∈ kindNames) →
    GridWF (L.foldl (fun g po => Function.update g po.1 (some po.2)) g) := by
  induction L with
  | nil => intro g hg _; exact hg
  | cons po L ih =>
      intro g hg hL
      simp only [List.foldl_cons]
      refine ih _ (gridWF_update g hg po.1 (some po.2) ?_) ?_
      · intro n hn
        exact hL po (List.mem_cons_self _ _) n (Option.some.inj hn)
      · intro po' h'
        exact hL po' (List.mem_cons_of_mem _ h')

theorem genObjects_resource_names (o : WObj) (ho : o ∈ genObjects) (n : String)
    (hn : o = WObj.resource n) : n ∈ kindNames := by
  subst hn
  simp only [genObjects, List.mem_cons, List.not_mem_nil, or_false,
    WObj.resource.injEq] at ho
  rcases ho with rfl | rfl | rfl | rfl | rfl | h | h <;> first | decide | cases h

theorem gridWF_placedGrid (w h : ℕ) (objPos : List (ℤ × ℤ)) :
    GridWF (placedGrid w h objPos) := by
  unfold placedGrid
  refine gridWF_foldl _ _ (gridWF_wallRing w h) ?_
  intro po hpo n hn
  exact genObjects_resource_names po.2 (List.of_mem_zip hpo).2 n hn

theorem stateInv_reset (s : SEnv) (objPos : List (ℤ × ℤ)) (c : ℤ × ℤ) (d : Fin 4)
    {s' : SEnv} (h : s.reset objPos c d = Except.ok s') : StateInv s' := by
  obtain ⟨_, hinv, _, _, _, hgrid⟩ := reset_fields s objPos c d h
  refine ⟨hgrid ▸ gridWF_placedGrid _ _ _, ?_, ?_, ?_⟩ <;> rw [hinv] <;> simp

theorem stateInv_step (s : SEnv) (a : Act) (h : StateInv s) : StateInv (s.step a).1 := by
  obtain ⟨hG, hB, hC, hD⟩ := h
  have hIS : ("Iron Sword") ∉ kindNames := by decide
  have hTR : ("Treasure") ∉ kindNames := by decide
  cases a
  case moveForward => exact stateInv_engineStep s _ ⟨hG, hB, hC, hD⟩
  case turnLeft => exact stateInv_engineStep s _ ⟨hG, hB, hC, hD⟩
  case turnRight => exact stateInv_engineStep s _ ⟨hG, hB, hC, hD⟩
  case craftSword =>
    rcases hf : s.grid (frontPos s) with _ | o
    · simp only [SEnv.step, hf]; exact stateInv_engineStep s _ ⟨hG, hB, hC, hD⟩
    · cases o with
      | resource n => simp only [SEnv.step, hf]; exact stateInv_engineStep s _ ⟨hG, hB, hC, hD⟩
      | wall => simp only [SEnv.step, hf]; exact stateInv_engineStep s _ ⟨hG, hB, hC, hD⟩
      | box c =>
        by_cases hc : c = "blue"
        · subst hc
          simp only [SEnv.step, hf, if_true]
          by_cases hcond :
              ("Tree") ∈ s.inventory ∧ ("Iron Ore") ∈ s.inventory ∧ s.swordCrafted = false
          · rw [if_pos hcond]
            obtain ⟨hT, hO, hS⟩ := hcond
            have hISnot : ("Iron Sword") ∉ s.inventory := fun hin => by
              rw [hD hin] at hS; cases hS
            have hsub : ((s.inventory.erase ("Tree")).erase ("Iron Ore")).Sublist s.inventory :=
              (List.erase_sublist _ _).trans (List.erase_sublist _ _)
            refine ⟨hG, ?_, ?_, fun _ => rfl⟩
            · intro r hr
              rcases List.mem_append.1 hr with hr | hr
              · exact hB r (List.mem_of_mem_erase (List.mem_of_mem_erase hr))
              · left; simpa using hr
            · intro r hrT
              rw [List.count_append]
              by_cases hrIS : r = "Iron Sword"
              · subst hrIS
                have h0 : s.inventory.count ("Iron Sword") = 0 := List.count_eq_zero.2 hISnot
                have h1 : ((s.inventory.erase ("Tree")).erase ("Iron Ore")).count
                    ("Iron Sword") = 0 :=
                  Nat.le_zero.1 (h0 ▸ hsub.count_le _)
                rw [h1]
                simp [List.count_singleton]
              · have h1 : (["Iron Sword"] : List String).count r = 0 := by
                  rw [List.count_singleton]
                  simp [Ne.symm hrIS]
                rw [h1]
                have h2 := hsub.count_le r
                have h3 := hC r hrT
                omega
          · rw [if_neg hcond]; exact ⟨hG, hB, hC, hD⟩
        · simp only [SEnv.step, hf, if_neg hc]; exact stateInv_engineStep s _ ⟨hG, hB, hC, hD⟩
  case openChest =>
    rcases hf : s.grid (frontPos s) with _ | o
    · simp only [SEnv.step, hf]; exact stateInv_engineStep s _ ⟨hG, hB, hC, hD⟩
    · cases o with
      | resource n => simp only [SEnv.step, hf]; exact stateInv_engineStep s _ ⟨hG, hB, hC, hD⟩
      | wall => simp only [SEnv.step, hf]; exact stateInv_engineStep s _ ⟨hG, hB, hC, hD⟩
      | box c =>
        by_cases hc : c = "purple"
        · subst hc
          simp only [SEnv.step, hf, if_true]
          by_cases hcond : ("Iron Sword") ∈ s.inventory
          · rw [if_pos hcond]
            refine ⟨hG, ?_, ?_, ?_⟩
            · intro r hr
              rcases List.mem_append.1 hr with hr | hr
              · exact hB r hr
              · right; left; simpa using hr
            · intro r hrT
              rw [List.count_append]
              have h1 : (["Treasure"] : List String).count r = 0 := by
                rw [List.count_singleton]
                simp [Ne.symm hrT]
              rw [h1]
              have h3 := hC r hrT
              omega
            · intro hin
              rcases List.mem_append.1 hin with hin | hin
              · exact hD hin
              · exact absurd (List.mem_singleton.1 hin) (by decide)
          · rw [if_neg hcond]; exact ⟨hG, hB, hC, hD⟩
        · simp only [SEnv.step, hf, if_neg hc]; exact stateInv_engineStep s _ ⟨hG, hB, hC, hD⟩
  case toggle =>
    rcases hf : s.grid (frontPos s) with _ | o
    · simp only [SEnv.step, hf]; exact stateInv_engineStep s _ ⟨hG, hB, hC, hD⟩
    · cases o with
      | box c => simp only [SEnv.step, hf]; exact stateInv_engineStep s _ ⟨hG, hB, hC, hD⟩
      | wall => simp only [SEnv.step, hf]; exact stateInv_engineStep s _ ⟨hG, hB, hC, hD⟩
      | resource n =>
        simp only [SEnv.step, hf]
        by_cases hmem : n ∈ s.collectedResourcesGlobal
        · rw [if_pos hmem]; exact ⟨hG, hB, hC, hD⟩
        · rw [if_neg hmem]
          have hkn : n ∈ kindNames := hG _ n hf
          have hnin : n ∉ s.inventory := fun hin => by
            rcases hB n hin with h1 | h1 | h1
            · exact hIS (h1 ▸ hkn)
            · exact hTR (h1 ▸ hkn)
            · exact hmem h1.2
          refine ⟨?_, ?_, ?_, ?_⟩
          · exact gridWF_update _ hG _ none (fun m hm => by cases hm)
          · intro r hr
            rcases List.mem_append.1 hr with hr | hr
            · rcases hB r hr with h1 | h1 | h1
              · exact Or.inl h1
              · exact Or.inr (Or.inl h1)
              · exact Or.inr (Or.inr ⟨h1.1, Finset.mem_insert_of_mem h1.2⟩)
            · have hrn : r = n := by simpa using hr
              subst hrn
              exact Or.inr (Or.inr ⟨hkn, Finset.mem_insert_self _ _⟩)
          · intro r hrT
            rw [List.count_append]
            by_cases hrn : r = n
            · subst hrn
              have h0 : s.inventory.count r = 0 := List.count_eq_zero.2 hnin
              rw [h0]
              simp [List.count_singleton]
            · have h1 : ([n] : List String).count r = 0 := by
                rw [List.count_singleton]
                simp [Ne.symm hrn]
              rw [h1]
              have h3 := hC r hrT
              omega
          · intro hin
            rcases List.mem_append.1 hin with hin | hin
            · exact hD hin
            · exfalso
              have hISn : ("Iron Sword") = n := by simpa using hin
              exact hIS (hISn ▸ hkn)

/-- Every reachable state satisfies the state invariant. -/
theorem reachable_stateInv {s : SEnv} (h : Reachable s) : StateInv s := by
  induction h with
  | init w hh maxR maxS pos d sp sd =>
      refine ⟨?_, ?_, ?_, ?_⟩
      · intro p n hp
        cases hp
      · simp
      · simp
      · simp
  | stepR a _ ih => exact stateInv_step _ a ih
  | resetR objPos c d _ hr _ => exact stateInv_reset _ objPos c d hr

/-- After a successful craft the two materials are gone, the sword occurs
exactly once, the flag is set, and the inventory got strictly shorter. -/
theorem craft_success_facts (s : SEnv)
    (hface : s.grid (frontPos s) = some (WObj.box ("blue")))
    (hT : ("Tree") ∈ s.inventory) (hO : ("Iron Ore") ∈ s.inventory)
    (hS : s.swordCrafted = false) (hinv : StateInv s) :
    (s.step Act.craftSword).1.inventory
        = ((s.inventory.erase ("Tree")).erase ("Iron Ore")) ++ [("Iron Sword")] ∧
    ("Tree") ∉ (s.step Act.craftSword).1.inventory ∧
    ("Iron Ore") ∉ (s.step Act.craftSword).1.inventory ∧
    (s.step Act.craftSword).1.inventory.count ("Iron Sword") = 1 ∧
    (s.step Act.craftSword).1.swordCrafted = true ∧
    (s.step Act.craftSword).2.1
        = -1 + (if s.currentEpisode < s.maxRewardEpisodes then 50 else 0) ∧
    (s.step Act.craftSword).1.inventory.length + 1 = s.inventory.length := by
  obtain ⟨hG, hB, hC, hD⟩ := hinv
  have hstep : s.step Act.craftSword =
      ({ s with
          inventory := ((s.inventory.erase ("Tree")).erase ("Iron Ore")) ++ [("Iron Sword")],
          swordCrafted := true },
        -1 + (if s.currentEpisode < s.maxRewardEpisodes then 50 else 0), false, false) := by
    simp only [SEnv.step, hface, if_true, if_pos (⟨hT, hO, hS⟩ :
      ("Tree") ∈ s.inventory ∧ ("Iron Ore") ∈ s.inventory ∧ s.swordCrafted = false)]
  rw [hstep]
  have hTc : s.inventory.count ("Tree") = 1 := by
    have h1 := hC ("Tree") (by decide)
    have h2 := List.count_pos_iff.2 hT
    omega
  have hOc : s.inventory.count ("Iron Ore") = 1 := by
    have h1 := hC ("Iron Ore") (by decide)
    have h2 := List.count_pos_iff.2 hO
    omega
  have hISnot : ("Iron Sword") ∉ s.inventory := fun hin => by
    rw [hD hin] at hS; cases hS
  have hsub : ((s.inventory.erase ("Tree")).erase ("Iron Ore")).Sublist s.inventory :=
    (List.erase_sublist _ _).trans (List.erase_sublist _ _)
  have hTc' : ((s.inventory.erase ("Tree")).erase ("Iron Ore")).count ("Tree") = 0 := by
    rw [List.count_erase_of_ne (by decide), List.count_erase_self, hTc]
  have hOc' : ((s.inventory.erase ("Tree")).erase ("Iron Ore")).count ("Iron Ore") = 0 := by
    rw [List.count_erase_self, List.count_erase_of_ne (by decide), hOc]
  have hISc' : ((s.inventory.erase ("Tree")).erase ("Iron Ore")).count ("Iron Sword") = 0 :=
    Nat.le_zero.1 ((List.count_eq_zero.2 hISnot) ▸ hsub.count_le ("Iron Sword"))
  refine ⟨rfl, ?_, ?_, ?_, rfl, rfl, ?_⟩
  · rw [← List.count_eq_zero, List.count_append, hTc']
    rw [List.count_singleton]
    simp
  · rw [← List.count_eq_zero, List.count_append, hOc']
    rw [List.count_singleton]
    simp
  · rw [List.count_append, hISc', List.count_singleton]
    simp
  · have hOm : ("Iron Ore") ∈ s.inventory.erase ("Tree") :=
      (List.mem_erase_of_ne (by decide)).2 hO
    simp only [List.length_append, List.length_erase_of_mem hT,
      List.length_erase_of_mem hOm, List.length_singleton]
    have h8 : 2 ≤ s.inventory.length := by
      have h1 : 0 < (s.inventory.erase ("Tree")).length :=
        List.length_pos.2 (List.ne_nil_of_mem hOm)
      have h2 : 0 < s.inventory.length :=
        List.length_pos.2 (List.ne_nil_of_mem hT)
      rw [List.length_erase_of_mem hT] at h1
      omega
    omega

/-- If the craft preconditions do not all hold, a `craft_sword` step leaves
the inventory unchanged (failed attempts return the state unchanged; all
other facings fall through to the engine, which never touches the
inventory). -/
theorem craft_fail_inventory (s : SEnv)
    (hnc : ¬(s.grid (frontPos s) = some (WObj.box ("blue")) ∧
      ("Tree") ∈ s.inventory ∧ ("Iron Ore") ∈ s.inventory ∧ s.swordCrafted = false)) :
    (s.step Act.craftSword).1.inventory = s.inventory := by
  rcases hf : s.grid (frontPos s) with _ | o
  · simp only [SEnv.step, hf]; exact (engineStep_fields s _).1
  · cases o with
    | resource n => simp only [SEnv.step, hf]; exact (engineStep_fields s _).1
    | wall => simp only [SEnv.step, hf]; exact (engineStep_fields s _).1
    | box c =>
      by_cases hc : c = "blue"
      · subst hc
        simp only [SEnv.step, hf, if_true]
        rw [if_neg (fun hcond => hnc ⟨hf, hcond⟩)]
      · simp only [SEnv.step, hf, if_neg hc]; exact (engineStep_fields s _).1

/-- C1: for every reachable state, a `craft_sword` step mutates the ledger
exactly when the agent faces the crafting table (blue box), the ledger
holds both "Tree" and "Iron Ore", and the sword flag is clear; after a
successful craft those two materials are absent, "Iron Sword" occurs
exactly once, the flag is set, and the reward is the base -1 plus 50
exactly when the current episode index is below the configured
reward-episode threshold (plus 0 otherwise). -/
theorem claim_C1_craft (s : SEnv) (hreach : Reachable s) :
    ((s.step Act.craftSword).1.inventory ≠ s.inventory ↔
      (s.grid (frontPos s) = some (WObj.box ("blue")) ∧
        ("Tree") ∈ s.inventory ∧ ("Iron Ore") ∈ s.inventory ∧ s.swordCrafted = false)) ∧
    (s.grid (frontPos s) = some (WObj.box ("blue")) →
      ("Tree") ∈ s.inventory → ("Iron Ore") ∈ s.inventory → s.swordCrafted = false →
      ("Tree") ∉ (s.step Act.craftSword).1.inventory ∧
      ("Iron Ore") ∉ (s.step Act.craftSword).1.inventory ∧
      (s.step Act.craftSword).1.inventory.count ("Iron Sword") = 1 ∧
      (s.step Act.craftSword).1.swordCrafted = true ∧
      (s.step Act.craftSword).2.1
        = -1 + (if s.currentEpisode < s.maxRewardEpisodes then 50 else 0)) := by
  have hinv := reachable_stateInv hreach
  constructor
  · constructor
    · intro hne
      by_contra hnc
      exact hne (craft_fail_inventory s hnc)
    · rintro ⟨hface, hT, hO, hS⟩
      have hfacts := craft_success_facts s hface hT hO hS hinv
      intro heq
      have hlen := hfacts.2.2.2.2.2.2
      rw [heq] at hlen
      omega
  · intro hface hT hO hS
    have hfacts := craft_success_facts s hface hT hO hS hinv
    exact ⟨hfacts.2.1, hfacts.2.2.1, hfacts.2.2.2.1, hfacts.2.2.2.2.1, hfacts.2.2.2.2.2.1⟩

/-- The freshly constructed environment used to anchor concrete reachable
states. -/
def envInit0 : SEnv :=
  { width := 6, height := 6, grid := fun _ => none, agentPos := (1, 1), agentDir := 0,
    inventory := [], swordCrafted := false, collectedResourcesGlobal := ∅,
    currentEpisode := 0, maxRewardEpisodes := 20, stepCount := 0, maxSteps := 100,
    agentStartPos := some (1, 1), agentStartDir := 0 }

/-- The state after a concrete reset of the fresh environment. -/
def sReset0 : SEnv := okOr (envInit0.reset objPosW (1, 1) 0) envInit0

/-- A concrete reachable state in which the agent has collected the Tree
and the Iron Ore and stands before the crafting table. -/
def sC1 : SEnv :=
  ((((sReset0.step Act.toggle).1.step Act.moveForward).1.step
      Act.toggle).1.step Act.moveForward).1

theorem sC1_reachable : Reachable sC1 :=
  Reachable.stepR _ (Reachable.stepR _ (Reachable.stepR _ (Reachable.stepR _
    (Reachable.resetR objPosW (1, 1) 0
      (Reachable.init 6 6 20 100 (1, 1) 0 (some (1, 1)) 0) rfl))))

/-- Witness for C1: at the concrete reachable state `sC1` the craft
preconditions hold, the craft consumes the materials, yields exactly one
Iron Sword, sets the flag, pays -1 + 50 (episode 1 is below the threshold
20) and mutates the ledger. -/
theorem claim_C1_craft_witness :
    ("Tree") ∉ (sC1.step Act.craftSword).1.inventory ∧
    ("Iron Ore") ∉ (sC1.step Act.craftSword).1.inventory ∧
    (sC1.step Act.craftSword).1.inventory.count ("Iron Sword") = 1 ∧
    (sC1.step Act.craftSword).1.swordCrafted = true ∧
    (sC1.step Act.craftSword).2.1 = 49 ∧
    (sC1.step Act.craftSword).1.inventory ≠ sC1.inventory := by
  have h := claim_C1_craft sC1 sC1_reachable
  have hsucc := h.2 (by decide) (by decide) (by decide) (by decide)
  refine ⟨hsucc.1, hsucc.2.1, hsucc.2.2.1, hsucc.2.2.2.1, ?_, ?_⟩
  · rw [hsucc.2.2.2.2]
    decide
  · exact h.1.2 ⟨by decide, by decide, by decide, by decide⟩

theorem indexOf_resourceNames_lt (item : String) (h : item ∈ resourceNames) :
    resourceNames.indexOf item < 8 :=
  List.indexOf_lt_length.2 h

/-- One iteration of `get_inventory_observation`'s loop: items that are in
`resource_names` bump the count at their index, other items are ignored. -/
def bumpInv (v : Fin 8 → ℕ) (item : String) : Fin 8 → ℕ :=
  if h : item ∈ resourceNames then
    Function.update v ⟨resourceNames.indexOf item, indexOf_resourceNames_lt item h⟩
      (v ⟨resourceNames.indexOf item, indexOf_resourceNames_lt item h⟩ + 1)
  else v

/-- `SimpleEnv.get_inventory_observation`: a zero vector over the eight
`resource_names` slots, incremented once per matching inventory item. -/
def get_inventory_observation (s : SEnv) : Fin 8 → ℕ :=
  s.inventory.foldl bumpInv (fun _ => 0)

theorem bumpInv_apply (v : Fin 8 → ℕ) (item : String) (i : Fin 8) :
    bumpInv v item i
      = v i + (if item ∈ resourceNames ∧ resourceNames.indexOf item = i.val
          then 1 else 0) := by
  unfold bumpInv
  split
  case isTrue h =>
    rw [Function.update_apply]
    by_cases hi : i = ⟨resourceNames.indexOf item, indexOf_resourceNames_lt item h⟩
    · rw [if_pos hi, if_pos ⟨h, by rw [hi]⟩, hi]
    · rw [if_neg hi, if_neg (fun hc => hi (Fin.ext hc.2.symm))]
      exact (Nat.add_zero _).symm
  case isFalse h =>
    rw [if_neg (fun hc => h hc.1)]
    exact (Nat.add_zero _).symm

theorem foldl_bumpInv (l : List String) (v : Fin 8 → ℕ) (i : Fin 8) :
    l.foldl bumpInv v i
      = v i + l.countP (fun item =>
          decide (item ∈ resourceNames) && decide (resourceNames.indexOf item = i.val)) := by
  induction l generalizing v with
  | nil => simp
  | cons a l ih =>
    rw [List.foldl_cons, ih, List.countP_cons, bumpInv_apply]
    have : (decide (a ∈ resourceNames) && decide (resourceNames.indexOf a = i.val)) = true
        ↔ (a ∈ resourceNames ∧ resourceNames.indexOf a = i.val) := by
      simp
    by_cases hc : a ∈ resourceNames ∧ resourceNames.indexOf a = i.val
    · rw [if_pos hc, if_pos (this.2 hc)]
      omega
    · rw [if_neg hc, if_neg (fun hb => hc (this.1 hb))]
      omega

/-- The name that slot `i` of the inventory observation counts. -/
def slotName : Fin 8 → String
  | ⟨0, _⟩ => "Iron Ore"
  | ⟨1, _⟩ => "Silver Ore"
  | ⟨2, _⟩ => "Platinum Ore"
  | ⟨3, _⟩ => "Gold Ore"
  | ⟨4, _⟩ => "Tree"
  | ⟨5, _⟩ => "Chest"
  | ⟨6, _⟩ => "Crafting Table"
  | ⟨7, _⟩ => "Wall"

theorem slot_pred_iff (i : Fin 8) (item : String) :
    ((item ∈ resourceNames ∧ resourceNames.indexOf item = i.val)
      ↔ item = slotName i) := by
  constructor
  · rintro ⟨hmem, hidx⟩
    rcases i with ⟨iv, hiv⟩
    have hidx2 : resourceNames.indexOf item = iv := hidx
    simp only [resourceNames, List.mem_cons, List.not_mem_nil, or_false] at hmem
    rcases hmem with rfl | rfl | rfl | rfl | rfl | rfl | rfl | rfl <;>
      interval_cases iv <;>
      first
        | rfl
        | exact absurd hidx2 (by decide)
  · rintro rfl
    revert i
    decide

theorem inventory_obs_count (s : SEnv) (i : Fin 8) :
    get_inventory_observation s i = s.inventory.count (slotName i) := by
  unfold get_inventory_observation
  rw [foldl_bumpInv]
  simp only [Nat.zero_add]
  rw [List.count_eq_countP]
  apply List.countP_congr
  intro item _
  rw [Bool.eq_iff_iff]
  simp only [Bool.and_eq_true, decide_eq_true_eq, beq_iff_eq, iff_true]
  exact slot_pred_iff i item

/-- C10: in every reachable state, each entry of the inventory-count
observation vector is 0 or 1 (hence always within the declared
MultiDiscrete bound of 10): appends are gated by the global collection
record, and the crafted and terminal item names ("Iron Sword", "Treasure")
never match any count slot. -/
theorem claim_C10_inventory_bounds (s : SEnv) (hreach : Reachable s) (i : Fin 8) :
    (get_inventory_observation s i = 0 ∨ get_inventory_observation s i = 1) ∧
    get_inventory_observation s i < 10 := by
  obtain ⟨_, _, hC, _⟩ := reachable_stateInv hreach
  have hs : slotName i ≠ ("Treasure") := by
    revert i
    decide
  have h1 := hC (slotName i) hs
  rw [inventory_obs_count]
  omega

/-- Witness for C10 at the concrete reachable state `sC1` (Tree and Iron
Ore collected): the Tree slot of the observation is exactly 1, within
bounds. -/
theorem claim_C10_inventory_bounds_witness :
    ((get_inventory_observation sC1 4 = 0 ∨ get_inventory_observation sC1 4 = 1) ∧
      get_inventory_observation sC1 4 < 10) ∧
    get_inventory_observation sC1 4 = 1 := by
  refine ⟨claim_C10_inventory_bounds sC1 sC1_reachable 4, ?_⟩
  decide

/-- The state produced by a concrete reset whose placement oracle puts the
agent at (3, 2) although the preferred start cell (1, 1) is free. -/
def sResetC8 : SEnv := okOr (envInit0.reset objPosW (3, 2) 0) envInit0

/-- Counterexample to C8 as stated: after this successful reset the
preferred start cell (1, 1) is configured and empty, yet the agent's pose
is the engine's random placement (3, 2), not the preferred cell --
`reset` calls the engine's random `place_agent` after `_gen_grid` and
overrides the provisional position. -/
theorem claim_C8_counterexample :
    envInit0.agentStartPos = some (1, 1) ∧
    envInit0.reset objPosW (3, 2) 0 = Except.ok sResetC8 ∧
    sResetC8.grid (1, 1) = none ∧
    sResetC8.agentPos ≠ (1, 1) ∧
    sResetC8.agentPos = (3, 2) := by
  refine ⟨rfl, rfl, by decide, by decide, by decide⟩

/-- C8 (amended): during grid generation the agent is provisionally placed
at the preferred start cell when that cell is empty (or would be if it held
an overlappable object); when it is occupied, the first empty interior cell
of the fixed x-outer/y-inner scan is used and recorded as the new preferred
start; when no empty interior cell exists, grid generation (and hence
reset) fails with the structural error.  However, whenever `reset` returns
successfully, the agent's final pose is the engine's random `place_agent`
choice, which need not be the preferred cell. -/
theorem claim_C8_amended (s : SEnv) (objPos : List (ℤ × ℤ)) (p : ℤ × ℤ)
    (hsp : s.agentStartPos = some p) :
    (placedGrid s.width s.height objPos p = none →
      genGrid s objPos
        = Except.ok { s with grid := placedGrid s.width s.height objPos, agentPos := p,
                             agentDir := s.agentStartDir }) ∧
    (∀ o, placedGrid s.width s.height objPos p = some o →
      (∀ q, (((interiorCells s.width s.height).filter
            (fun q => (placedGrid s.width s.height objPos q).isNone)).head? = some q →
        genGrid s objPos
          = Except.ok { s with grid := placedGrid s.width s.height objPos,
                               agentStartPos := some q, agentPos := q,
                               agentDir := s.agentStartDir })) ∧
      (((interiorCells s.width s.height).filter
            (fun q => (placedGrid s.width s.height objPos q).isNone)) = [] →
        genGrid s objPos
          = Except.error ("No valid starting position available for the agent."))) ∧
    (∀ (c : ℤ × ℤ) (d : Fin 4) (s' : SEnv),
      s.reset objPos c d = Except.ok s' → s'.agentPos = c ∧ s'.agentDir = d) := by
  refine ⟨?_, ?_, ?_⟩
  · intro hnone
    simp only [genGrid, hsp, hnone]
  · intro o hocc
    constructor
    · intro q hq
      rcases hl : (interiorCells s.width s.height).filter
          (fun q => (placedGrid s.width s.height objPos q).isNone) with _ | ⟨q', L⟩
      · rw [hl] at hq
        cases hq
      · rw [hl] at hq
        have hq' : q' = q := by simpa using hq
        subst hq'
        simp only [genGrid, hsp, hocc, WObj.canOverlap, Bool.false_eq_true, if_false, hl]
    · intro hl
      simp only [genGrid, hsp, hocc, WObj.canOverlap, Bool.false_eq_true, if_false, hl]
  · intro c d s' h
    unfold SEnv.reset at h
    dsimp only at h
    split at h
    · cases h
    · cases h
      exact ⟨rfl, rfl⟩

/-- A tiny 3-by-3 environment whose only interior cell is occupied, so that
grid generation must fail. -/
def envTiny : SEnv := { envInit0 with width := 3, height := 3 }

/-- Oracle positions for `envTiny`: the first object lands on the unique
interior cell, the rest land outside the scanned area. -/
def objPosTiny : List (ℤ × ℤ) :=
  [(1, 1), (5, 5), (6, 5), (7, 5), (8, 5), (9, 5), (10, 5)]

/-- Witness for C8 (amended) at concrete inputs: the free-start-cell case,
the occupied-start-cell scan case, the no-empty-cell structural error, and
the final random pose of a concrete successful reset. -/
theorem claim_C8_amended_witness :
    genGrid envInit0 objPosW
      = Except.ok { envInit0 with grid := placedGrid 6 6 objPosW, agentPos := (1, 1),
                                  agentDir := 0 } ∧
    genGrid ({ envInit0 with agentStartPos := some (3, 1) }) objPosW
      = Except.ok { envInit0 with grid := placedGrid 6 6 objPosW,
                                  agentStartPos := some (1, 1), agentPos := (1, 1),
                                  agentDir := 0 } ∧
    genGrid envTiny objPosTiny
      = Except.error ("No valid starting position available for the agent.") ∧
    (sResetC8.agentPos = (3, 2) ∧ sResetC8.agentDir = 0) := by
  refine ⟨?_, ?_, ?_, ?_⟩
  · exact (claim_C8_amended envInit0 objPosW (1, 1) rfl).1 (by decide)
  · exact ((claim_C8_amended ({ envInit0 with agentStartPos := some (3, 1) }) objPosW (3, 1)
      rfl).2.1 (WObj.resource ("Iron Ore")) (by decide)).1 (1, 1) (by decide)
  · exact ((claim_C8_amended envTiny objPosTiny (1, 1) rfl).2.1 (WObj.resource ("Iron Ore"))
      (by decide)).2 (by decide)
  · exact (claim_C8_amended envInit0 objPosW (1, 1) rfl).2.2 (3, 2) 0 sResetC8 rfl

/-- `np.arctan2(y, x)`: the absolute bearing of the vector (x, y), in
(-π, π]. -/
noncomputable def atan2 (y x : ℝ) : ℝ :=
  if 0 < x then Real.arctan (y / x)
  else if x < 0 ∧ 0 ≤ y then Real.arctan (y / x) + π
  else if x < 0 ∧ y < 0 then Real.arctan (y / x) - π
  else if x = 0 ∧ 0 < y then π / 2
  else if x = 0 ∧ y < 0 then -(π / 2)
  else 0

/-- `(angle_to_obj - angle + np.pi) % (2 * np.pi) - np.pi`, with Python's
float modulo written out through the floor function. -/
noncomputable def angleDiff (θ α : ℝ) : ℝ :=
  (θ - α + π) - 2 * π * ⌊(θ - α + π) / (2 * π)⌋ - π

/-- `np.linspace(0, 2 * np.pi, 8, endpoint=False)`: the nominal angle of
beam `i` is `i * 2π/8`. -/
noncomputable def beamAngle (i : Fin 8) : ℝ := (i.val : ℝ) * (2 * π) / 8

/-- `angle_to_obj` for the object at cell `p` seen from the agent cell
`a`. -/
noncomputable def vecAngle (a p : ℤ × ℤ) : ℝ :=
  atan2 ((p.2 - a.2 : ℤ) : ℝ) ((p.1 - a.1 : ℤ) : ℝ)

/-- `np.linalg.norm(vec_to_obj)`: the Euclidean distance from the agent
cell to the object cell. -/
noncomputable def distTo (a p : ℤ × ℤ) : ℝ :=
  Real.sqrt (((p.1 - a.1 : ℤ) : ℝ) ^ 2 + ((p.2 - a.2 : ℤ) : ℝ) ^ 2)

/-- The beam-membership test `abs(angle_diff) <= np.pi / 8`. -/
def Qual (a p : ℤ × ℤ) (α : ℝ) : Prop := |angleDiff (vecAngle a p) α| ≤ π / 8

noncomputable instance (a p : ℤ × ℤ) (α : ℝ) : Decidable (Qual a p α) :=
  Real.decidableLE _ _

/-- `SimpleEnv.get_entity_index`. -/
def getEntityIndex : WObj → ℕ
  | WObj.resource n => resourceNames.indexOf n
  | WObj.box c => resourceNames.indexOf (if c = "purple" then "Chest" else "Crafting Table")
  | WObj.wall => resourceNames.indexOf ("Wall")

/-- The scan's fixed enumeration of grid cells: `x` over `range(width)` in
the outer loop, `y` over `range(height)` in the inner loop. -/
def scanCells (w h : ℕ) : List (ℤ × ℤ) :=
  (List.range w).flatMap fun (x : ℕ) =>
    (List.range h).map fun (y : ℕ) => ((x : ℤ), (y : ℤ))

/-- The occupied cells, with their objects, in scan order (the scan skips
empty cells). -/
def objCells (s : SEnv) : List ((ℤ × ℤ) × WObj) :=
  (scanCells s.width s.height).filterMap fun p => (s.grid p).map fun o => (p, o)

/-- One iteration of the inner scan loop of `get_lidar_observation`: an
object within the beam's half-width that is strictly closer than the
running minimum (initially infinite) becomes the new minimum and its
entity index the encoded one. -/
noncomputable def sectorAcc (a : ℤ × ℤ) (α : ℝ) (acc : Option (ℝ × ℕ))
    (po : (ℤ × ℤ) × WObj) : Option (ℝ × ℕ) :=
  match acc with
  | none => if Qual a po.1 α then some (distTo a po.1, getEntityIndex po.2) else none
  | some b =>
      if Qual a po.1 α ∧ distTo a po.1 < b.1
      then some (distTo a po.1, getEntityIndex po.2) else some b

/-- The scan of one beam: the minimal distance and the entity index of the
closest qualifying object, if any. -/
noncomputable def scanSector (s : SEnv) (α : ℝ) : Option (ℝ × ℕ) :=
  (objCells s).foldl (sectorAcc s.agentPos α) none

/-- `SimpleEnv.get_lidar_observation` as a function of beam and entity
slot: row `i` is zero except, when some object qualifies, at the closest
object's entity index, which holds the minimal distance normalized by the
grid width. -/
noncomputable def get_lidar_observation (s : SEnv) (i : Fin 8) (k : Fin 8) : ℝ :=
  match scanSector s (beamAngle i) with
  | none => 0
  | some b => if k.val = b.2 then b.1 / s.width else 0

/-- Specification-side recursion computing the entry the scan keeps: the
first element attaining the minimal first component (strict improvement
only). -/
noncomputable def pickFirstMin : List (ℝ × ℕ) → Option (ℝ × ℕ)
  | [] => none
  | x :: xs =>
      match pickFirstMin xs with
      | none => some x
      | some y => if y.1 < x.1 then some y else some x

/-- The qualifying entries (distance, entity index) of one beam, in scan
order. -/
noncomputable def qualEntries (s : SEnv) (α : ℝ) : List (ℝ × ℕ) :=
  ((objCells s).filter fun po => decide (Qual s.agentPos po.1 α)).map
    fun po => (distTo s.agentPos po.1, getEntityIndex po.2)

noncomputable def mergeAcc : Option (ℝ × ℕ) → Option (ℝ × ℕ) → Option (ℝ × ℕ)
  | none, r => r
  | some b, none => some b
  | some b, some y => if y.1 < b.1 then some y else some b

theorem sectorAcc_eq_merge (a : ℤ × ℤ) (α : ℝ) (acc : Option (ℝ × ℕ))
    (po : (ℤ × ℤ) × WObj) :
    sectorAcc a α acc po
      = if Qual a po.1 α
        then mergeAcc acc (some (distTo a po.1, getEntityIndex po.2))
        else acc := by
  cases acc with
  | none =>
      simp only [sectorAcc, mergeAcc]
  | some b =>
      simp only [sectorAcc, mergeAcc]
      by_cases hq : Qual a po.1 α
      · rw [if_pos hq]
        by_cases hlt : distTo a po.1 < b.1
        · rw [if_pos ⟨hq, hlt⟩, if_pos hlt]
        · rw [if_neg (fun hc => hlt hc.2), if_neg hlt]
      · rw [if_neg hq, if_neg (fun hc => hq hc.1)]

theorem pickFirstMin_cons (x : ℝ × ℕ) (xs : List (ℝ × ℕ)) :
    pickFirstMin (x :: xs) = mergeAcc (some x) (pickFirstMin xs) := by
  cases hp : pickFirstMin xs <;> simp only [pickFirstMin, hp, mergeAcc]

theorem mergeAcc_assoc (u v w : Option (ℝ × ℕ)) :
    mergeAcc (mergeAcc u v) w = mergeAcc u (mergeAcc v w) := by
  cases u with
  | none => rfl
  | some b =>
    cases v with
    | none => cases w <;> rfl
    | some y =>
      cases w with
      | none =>
          simp only [mergeAcc]
          by_cases h1 : y.1 < b.1
          · rw [if_pos h1]
          · rw [if_neg h1]
      | some z =>
          simp only [mergeAcc]
          by_cases h1 : y.1 < b.1 <;> by_cases h2 : z.1 < y.1
          · rw [if_pos h1, if_pos h2]
            simp only [mergeAcc]
            rw [if_pos h2, if_pos (h2.trans h1)]
          · rw [if_pos h1, if_neg h2]
            simp only [mergeAcc]
            rw [if_neg h2, if_pos h1]
          · rw [if_neg h1, if_pos h2]
          · rw [if_neg h1, if_neg h2]
            simp only [mergeAcc]
            have h3 : ¬ z.1 < b.1 := fun hc => h2 (hc.trans_le (not_lt.1 h1))
            rw [if_neg h3, if_neg h1]

theorem foldl_sectorAcc (a : ℤ × ℤ) (α : ℝ) (L : List ((ℤ × ℤ) × WObj)) :
    ∀ acc : Option (ℝ × ℕ),
      L.foldl (sectorAcc a α) acc
        = mergeAcc acc (pickFirstMin ((L.filter fun po => decide (Qual a po.1 α)).map
            fun po => (distTo a po.1, getEntityIndex po.2))) := by
  induction L with
  | nil => intro acc; cases acc <;> rfl
  | cons po L ih =>
      intro acc
      rw [List.foldl_cons, ih, sectorAcc_eq_merge]
      by_cases hq : Qual a po.1 α
      · rw [if_pos hq, List.filter_cons_of_pos (by simpa using hq), List.map_cons,
          pickFirstMin_cons, mergeAcc_assoc]
      · rw [if_neg hq, List.filter_cons_of_neg (by simpa using hq)]

theorem scanSector_eq_pick (s : SEnv) (α : ℝ) :
    scanSector s α = pickFirstMin (qualEntries s α) := by
  unfold scanSector qualEntries
  rw [foldl_sectorAcc]
  cases pickFirstMin (((objCells s).filter fun po =>
      decide (Qual s.agentPos po.1 α)).map
        fun po => (distTo s.agentPos po.1, getEntityIndex po.2)) <;> rfl

theorem pickFirstMin_mem : ∀ {L : List (ℝ × ℕ)} {y : ℝ × ℕ},
    pickFirstMin L = some y → y ∈ L := by
  intro L
  induction L with
  | nil => intro y h; cases h
  | cons x xs ih =>
      intro y h
      rw [pickFirstMin_cons] at h
      cases hp : pickFirstMin xs with
      | none =>
          rw [hp] at h
          simp only [mergeAcc] at h
          cases h
          exact List.mem_cons_self _ _
      | some z =>
          rw [hp] at h
          simp only [mergeAcc] at h
          split at h
          · cases h
            exact List.mem_cons_of_mem _ (ih hp)
          · cases h
            exact List.mem_cons_self _ _

theorem pickFirstMin_first (A B : List (ℝ × ℕ)) (x : ℝ × ℕ)
    (hA : ∀ a ∈ A, x.1 < a.1) (hB : ∀ b ∈ B, x.1 ≤ b.1) :
    pickFirstMin (A ++ x :: B) = some x := by
  induction A with
  | nil =>
      simp only [List.nil_append, pickFirstMin_cons]
      cases hp : pickFirstMin B with
      | none => rfl
      | some y =>
          have hy := pickFirstMin_mem hp
          simp only [mergeAcc, if_neg (not_lt.2 (hB y hy))]
  | cons a A ih =>
      simp only [List.cons_append, pickFirstMin_cons]
      rw [ih (fun a' ha' => hA a' (List.mem_cons_of_mem _ ha'))]
      simp only [mergeAcc, if_pos (hA a (List.mem_cons_self _ _))]

/-- The wrapped angular difference of two angles that differ by an integer
multiple of π/4 is within the beam half-width π/8 exactly when that
multiple is divisible by 8 (i.e. the angles agree modulo 2π). -/
theorem angleDiff_int_pi4 (θ α : ℝ) (m : ℤ) (h : θ - α = (m : ℝ) * (π / 4)) :
    (|angleDiff θ α| ≤ π / 8 ↔ m % 8 = 0) := by
  obtain ⟨k, hk1, hk2⟩ : ∃ k : ℤ, 8 * k ≤ m + 4 ∧ m + 4 < 8 * k + 8 :=
    ⟨(m + 4) / 8, by omega, by omega⟩
  have hpi := Real.pi_pos
  have hpne : (π : ℝ) ≠ 0 := Real.pi_ne_zero
  have hfl : ⌊(θ - α + π) / (2 * π)⌋ = k := by
    have h2 : (θ - α + π) / (2 * π) = ((m : ℝ) + 4) / 8 := by
      rw [h]
      field_simp
      ring
    rw [h2, Int.floor_eq_iff]
    constructor
    · have h3 : ((8 * k : ℤ) : ℝ) ≤ ((m + 4 : ℤ) : ℝ) := by exact_mod_cast hk1
      push_cast at h3 ⊢
      linarith
    · have h3 : ((m + 4 : ℤ) : ℝ) < ((8 * k + 8 : ℤ) : ℝ) := by exact_mod_cast hk2
      push_cast at h3 ⊢
      linarith
  have hAD : angleDiff θ α = ((m - 8 * k : ℤ) : ℝ) * (π / 4) := by
    unfold angleDiff
    rw [hfl, h]
    push_cast
    ring
  rw [hAD, abs_mul, abs_of_pos (by linarith : (0:ℝ) < π / 4)]
  constructor
  · intro hle
    have h4 : |((m - 8 * k : ℤ) : ℝ)| ≤ 1 / 2 := by
      nlinarith [abs_nonneg ((m - 8 * k : ℤ) : ℝ)]
    have h6 : ((|m - 8 * k| : ℤ) : ℝ) ≤ 1 / 2 := by rwa [Int.cast_abs]
    have h7 : ((|m - 8 * k| : ℤ) : ℝ) < 1 := by linarith
    have h8 : |m - 8 * k| < 1 := by exact_mod_cast h7
    rcases abs_lt.1 h8 with ⟨h9, h10⟩
    omega
  · intro hm
    have h9 : m - 8 * k = 0 := by omega
    rw [h9]
    have h10 : (0:ℝ) ≤ π / 8 := by positivity
    simpa using h10

/-- `atan2` of a vector pointing along the positive x axis. -/
theorem atan2_east (t : ℝ) (ht : 0 < t) : atan2 0 t = 0 := by
  unfold atan2
  rw [if_pos ht, zero_div, Real.arctan_zero]

/-- `atan2` of a vector pointing along the positive y axis. -/
theorem atan2_south (t : ℝ) (ht : 0 < t) : atan2 t 0 = π / 2 := by
  unfold atan2
  rw [if_neg (lt_irrefl 0), if_neg (fun hc => lt_irrefl 0 hc.1),
    if_neg (fun hc => lt_irrefl 0 hc.1), if_pos ⟨rfl, ht⟩]

/-- `atan2` of a vector pointing along the negative x axis. -/
theorem atan2_west (t : ℝ) (ht : 0 < t) : atan2 0 (-t) = π := by
  unfold atan2
  rw [if_neg (by linarith : ¬(0:ℝ) < -t), if_pos ⟨by linarith, le_refl 0⟩,
    zero_div, Real.arctan_zero, zero_add]

/-- `atan2` of a vector pointing along the negative y axis. -/
theorem atan2_north (t : ℝ) (ht : 0 < t) : atan2 (-t) 0 = -(π / 2) := by
  unfold atan2
  rw [if_neg (lt_irrefl 0), if_neg (fun hc => lt_irrefl 0 hc.1),
    if_neg (fun hc => lt_irrefl 0 hc.1),
    if_neg (fun hc => absurd hc.2 (by linarith)), if_pos ⟨rfl, by linarith⟩]

theorem mem_scanCells (w h : ℕ) (p : ℤ × ℤ) :
    p ∈ scanCells w h ↔ 0 ≤ p.1 ∧ p.1 < (w : ℤ) ∧ 0 ≤ p.2 ∧ p.2 < (h : ℤ) := by
  obtain ⟨px, py⟩ := p
  unfold scanCells
  constructor
  · intro hmem
    rcases List.mem_flatMap.1 hmem with ⟨x, hx, hpx⟩
    rcases List.mem_map.1 hpx with ⟨y, hy, hxy⟩
    cases hxy
    rw [List.mem_range] at hx hy
    dsimp only
    exact ⟨by omega, by omega, by omega, by omega⟩
  · rintro ⟨h1, h2, h3, h4⟩
    refine List.mem_flatMap.2 ⟨px.toNat, List.mem_range.2 (by omega), ?_⟩
    refine List.mem_map.2 ⟨py.toNat, List.mem_range.2 (by omega), ?_⟩
    have e1 : (px.toNat : ℤ) = px := Int.toNat_of_nonneg h1
    have e2 : (py.toNat : ℤ) = py := Int.toNat_of_nonneg h3
    rw [e1, e2]

theorem nodup_scanCells (w h : ℕ) : (scanCells w h).Nodup := by
  unfold scanCells
  rw [List.nodup_flatMap]
  constructor
  · intro x _
    refine List.Nodup.map ?_ (List.nodup_range h)
    intro a b hab
    have h2 := (Prod.ext_iff.1 hab).2
    dsimp only at h2
    exact_mod_cast h2
  · refine List.Pairwise.imp ?_ (List.nodup_range w)
    intro x y hxy q hqx hqy
    rcases List.mem_map.1 hqx with ⟨a, _, rfl⟩
    rcases List.mem_map.1 hqy with ⟨b, _, hb⟩
    have hxb := (Prod.ext_iff.1 hb.symm).1
    dsimp only at hxb
    exact hxy (by exact_mod_cast hxb)

theorem filterMap_support_nil (g : ℤ × ℤ → Option WObj) (L : List (ℤ × ℤ))
    (hL : ∀ p ∈ L, g p = none) :
    L.filterMap (fun p => (g p).map fun o => (p, o)) = [] := by
  induction L with
  | nil => rfl
  | cons q L ih =>
      simp only [List.filterMap_cons, hL q (List.mem_cons_self _ _), Option.map_none']
      exact ih fun p hp => hL p (List.mem_cons_of_mem _ hp)

theorem filterMap_single_support (g : ℤ × ℤ → Option WObj) (tgt : ℤ × ℤ) (o : WObj)
    (L : List (ℤ × ℤ)) (hN : L.Nodup) (hmem : tgt ∈ L)
    (hg : ∀ p ∈ L, g p = if p = tgt then some o else none) :
    L.filterMap (fun p => (g p).map fun ob => (p, ob)) = [(tgt, o)] := by
  induction L with
  | nil => cases hmem
  | cons q L ih =>
      rcases List.mem_cons.1 hmem with rfl | hmem'
      · have hq : g tgt = some o := by rw [hg tgt (List.mem_cons_self _ _), if_pos rfl]
        simp only [List.filterMap_cons, hq, Option.map_some']
        have hnil : ∀ p ∈ L, g p = none := by
          intro p hp
          rw [hg p (List.mem_cons_of_mem _ hp), if_neg]
          intro hpe
          subst hpe
          exact (List.nodup_cons.1 hN).1 hp
        rw [filterMap_support_nil g L hnil]
      · have hqt : q ≠ tgt := fun hqe => by
          subst hqe
          exact (List.nodup_cons.1 hN).1 hmem'
        have hq : g q = none := by rw [hg q (List.mem_cons_self _ _), if_neg hqt]
        simp only [List.filterMap_cons, hq, Option.map_none']
        exact ih (List.nodup_cons.1 hN).2 hmem' (fun p hp => hg p (List.mem_cons_of_mem _ hp))

theorem filterMap_pair_support (g : ℤ × ℤ → Option WObj) (p1 p2 : ℤ × ℤ) (o1 o2 : WObj)
    (hne : p1 ≠ p2) (L : List (ℤ × ℤ)) (hN : L.Nodup) (h1 : p1 ∈ L) (h2 : p2 ∈ L)
    (hg : ∀ p ∈ L, g p = if p = p1 then some o1 else if p = p2 then some o2 else none) :
    L.filterMap (fun p => (g p).map fun ob => (p, ob)) = [(p1, o1), (p2, o2)] ∨
    L.filterMap (fun p => (g p).map fun ob => (p, ob)) = [(p2, o2), (p1, o1)] := by
  induction L with
  | nil => cases h1
  | cons q L ih =>
      by_cases hq1 : q = p1
      · subst hq1
        left
        have hq : g q = some o1 := by rw [hg q (List.mem_cons_self _ _), if_pos rfl]
        simp only [List.filterMap_cons, hq, Option.map_some']
        have h2' : p2 ∈ L := by
          rcases List.mem_cons.1 h2 with h | h
          · exact absurd h.symm hne
          · exact h
        rw [filterMap_single_support g p2 o2 L (List.nodup_cons.1 hN).2 h2']
        intro p hp
        rw [hg p (List.mem_cons_of_mem _ hp), if_neg]
        intro hpe
        subst hpe
        exact (List.nodup_cons.1 hN).1 hp
      · by_cases hq2 : q = p2
        · subst hq2
          right
          have hq : g q = some o2 := by
            rw [hg q (List.mem_cons_self _ _), if_neg hq1, if_pos rfl]
          simp only [List.filterMap_cons, hq, Option.map_some']
          have h1' : p1 ∈ L := by
            rcases List.mem_cons.1 h1 with h | h
            · exact absurd h.symm hq1
            · exact h
          have hsingle : ∀ p ∈ L, g p = if p = p1 then some o1 else none := by
            intro p hp
            rw [hg p (List.mem_cons_of_mem _ hp)]
            by_cases hpe : p = p1
            · rw [if_pos hpe, if_pos hpe]
            · rw [if_neg hpe, if_neg hpe, if_neg]
              intro hpq
              subst hpq
              exact (List.nodup_cons.1 hN).1 hp
          rw [filterMap_single_support g p1 o1 L (List.nodup_cons.1 hN).2 h1' hsingle]
        · have hq : g q = none := by
            rw [hg q (List.mem_cons_self _ _), if_neg hq1, if_neg hq2]
          simp only [List.filterMap_cons, hq, Option.map_none']
          have h1' : p1 ∈ L := by
            rcases List.mem_cons.1 h1 with h | h
            · exact absurd h.symm hq1
            · exact h
          have h2' : p2 ∈ L := by
            rcases List.mem_cons.1 h2 with h | h
            · exact absurd h.symm hq2
            · exact h
          exact ih (List.nodup_cons.1 hN).2 h1' h2'
            (fun p hp => hg p (List.mem_cons_of_mem _ hp))

theorem vecAngle_add (a : ℤ × ℤ) (vx vy : ℤ) :
    vecAngle a (a.1 + vx, a.2 + vy) = atan2 (vy : ℝ) (vx : ℝ) := by
  unfold vecAngle
  dsimp only
  congr 1 <;> (push_cast; ring)

theorem distTo_add (a : ℤ × ℤ) (vx vy : ℤ) :
    distTo a (a.1 + vx, a.2 + vy) = Real.sqrt ((vx : ℝ) ^ 2 + (vy : ℝ) ^ 2) := by
  unfold distTo
  dsimp only
  congr 2 <;> (push_cast; ring)

/-- The bearing and the beam membership of an object directly in front of
the agent: it lies at Euclidean distance `t` and qualifies exactly for the
beam aligned with the agent's direction (beam `2 * dir`). -/
theorem front_dist_qual (a : ℤ × ℤ) (d : Fin 4) (t : ℤ) (ht : 1 ≤ t) :
    distTo a (a.1 + t * (dirVec d).1, a.2 + t * (dirVec d).2) = (t : ℝ) ∧
    ∀ i : Fin 8,
      (Qual a (a.1 + t * (dirVec d).1, a.2 + t * (dirVec d).2) (beamAngle i)
        ↔ i.val = 2 * d.val) := by
  have htR : (0 : ℝ) < (t : ℝ) := by exact_mod_cast (by omega : (0:ℤ) < t)
  have hd8 : ∀ i : Fin 8, i.val < 8 := fun i => i.isLt
  rcases d with ⟨dv, hdv⟩
  interval_cases dv
  · refine ⟨?_, ?_⟩
    · rw [show dirVec ⟨0, by omega⟩ = (1, 0) from rfl, distTo_add]
      rw [show ((t * 1 : ℤ) : ℝ) ^ 2 + ((t * 0 : ℤ) : ℝ) ^ 2 = (t:ℝ) ^ 2 by push_cast; ring]
      exact Real.sqrt_sq htR.le
    · intro i
      unfold Qual
      rw [show dirVec ⟨0, by omega⟩ = (1, 0) from rfl, vecAngle_add]
      rw [show ((t * 1 : ℤ) : ℝ) = (t : ℝ) by push_cast; ring,
        show ((t * 0 : ℤ) : ℝ) = 0 by push_cast; ring]
      rw [atan2_east _ htR]
      rw [angleDiff_int_pi4 _ _ (-(i.val : ℤ))
        (by unfold beamAngle; push_cast; ring)]
      have h3 := hd8 i
      rw [show ((⟨0, hdv⟩ : Fin 4)).val = 0 from rfl]
      constructor <;> (intro h2; omega)
  · refine ⟨?_, ?_⟩
    · rw [show dirVec ⟨1, by omega⟩ = (0, 1) from rfl, distTo_add]
      rw [show ((t * 0 : ℤ) : ℝ) ^ 2 + ((t * 1 : ℤ) : ℝ) ^ 2 = (t:ℝ) ^ 2 by push_cast; ring]
      exact Real.sqrt_sq htR.le
    · intro i
      unfold Qual
      rw [show dirVec ⟨1, by omega⟩ = (0, 1) from rfl, vecAngle_add]
      rw [show ((t * 1 : ℤ) : ℝ) = (t : ℝ) by push_cast; ring,
        show ((t * 0 : ℤ) : ℝ) = 0 by push_cast; ring]
      rw [atan2_south _ htR]
      rw [angleDiff_int_pi4 _ _ (2 - (i.val : ℤ))
        (by unfold beamAngle; push_cast; ring)]
      have h3 := hd8 i
      rw [show ((⟨1, hdv⟩ : Fin 4)).val = 1 from rfl]
      constructor <;> (intro h2; omega)
  · refine ⟨?_, ?_⟩
    · rw [show dirVec ⟨2, by omega⟩ = (-1, 0) from rfl, distTo_add]
      rw [show ((t * -1 : ℤ) : ℝ) ^ 2 + ((t * 0 : ℤ) : ℝ) ^ 2 = (t:ℝ) ^ 2 by push_cast; ring]
      exact Real.sqrt_sq htR.le
    · intro i
      unfold Qual
      rw [show dirVec ⟨2, by omega⟩ = (-1, 0) from rfl, vecAngle_add]
      rw [show ((t * -1 : ℤ) : ℝ) = -(t : ℝ) by push_cast; ring,
        show ((t * 0 : ℤ) : ℝ) = 0 by push_cast; ring]
      rw [atan2_west _ htR]
      rw [angleDiff_int_pi4 _ _ (4 - (i.val : ℤ))
        (by unfold beamAngle; push_cast; ring)]
      have h3 := hd8 i
      rw [show ((⟨2, hdv⟩ : Fin 4)).val = 2 from rfl]
      constructor <;> (intro h2; omega)
  · refine ⟨?_, ?_⟩
    · rw [show dirVec ⟨3, by omega⟩ = (0, -1) from rfl, distTo_add]
      rw [show ((t * 0 : ℤ) : ℝ) ^ 2 + ((t * -1 : ℤ) : ℝ) ^ 2 = (t:ℝ) ^ 2 by push_cast; ring]
      exact Real.sqrt_sq htR.le
    · intro i
      unfold Qual
      rw [show dirVec ⟨3, by omega⟩ = (0, -1) from rfl, vecAngle_add]
      rw [show ((t * -1 : ℤ) : ℝ) = -(t : ℝ) by push_cast; ring,
        show ((t * 0 : ℤ) : ℝ) = 0 by push_cast; ring]
      rw [atan2_north _ htR]
      rw [angleDiff_int_pi4 _ _ (-2 - (i.val : ℤ))
        (by unfold beamAngle; push_cast; ring)]
      have h3 := hd8 i
      rw [show ((⟨3, hdv⟩ : Fin 4)).val = 3 from rfl]
      constructor <;> (intro h2; omega)

/-- A single object directly in front of the agent, at Euclidean distance
`t`: it shows up only in the beam aligned with the agent's direction, in
its own entity slot, with value `t` normalized by the grid width; every
other entry of the whole scan is zero. -/
theorem lidar_single_front (s : SEnv) (t : ℤ) (o : WObj) (tgt : ℤ × ℤ)
    (ht : 1 ≤ t)
    (htgt : tgt = (s.agentPos.1 + t * (dirVec s.agentDir).1,
                   s.agentPos.2 + t * (dirVec s.agentDir).2))
    (hgrid : ∀ p, s.grid p = if p = tgt then some o else none)
    (hb1 : 0 ≤ tgt.1) (hb2 : tgt.1 < (s.width : ℤ))
    (hb3 : 0 ≤ tgt.2) (hb4 : tgt.2 < (s.height : ℤ)) :
    distTo s.agentPos tgt = (t : ℝ) ∧
    ∀ i k : Fin 8,
      get_lidar_observation s i k
        = if i.val = 2 * s.agentDir.val ∧ k.val = getEntityIndex o
          then (t : ℝ) / s.width else 0 := by
  have hfq := front_dist_qual s.agentPos s.agentDir t ht
  rw [← htgt] at hfq
  refine ⟨hfq.1, ?_⟩
  have hobj : objCells s = [(tgt, o)] := by
    unfold objCells
    exact filterMap_single_support s.grid tgt o _ (nodup_scanCells _ _)
      ((mem_scanCells _ _ tgt).2 ⟨hb1, hb2, hb3, hb4⟩) (fun p _ => hgrid p)
  have hqe : ∀ i : Fin 8, qualEntries s (beamAngle i)
      = if i.val = 2 * s.agentDir.val then [((t : ℝ), getEntityIndex o)] else [] := by
    intro i
    unfold qualEntries
    rw [hobj]
    by_cases hi : i.val = 2 * s.agentDir.val
    · rw [if_pos hi, List.filter_cons, if_pos (decide_eq_true ((hfq.2 i).2 hi)),
        List.filter_nil, List.map_cons, List.map_nil, hfq.1]
    · rw [if_neg hi, List.filter_cons,
        if_neg (by simpa using fun hq => hi ((hfq.2 i).1 hq)),
        List.filter_nil, List.map_nil]
  intro i k
  unfold get_lidar_observation
  rw [scanSector_eq_pick, hqe i]
  by_cases hi : i.val = 2 * s.agentDir.val
  · rw [if_pos hi]
    by_cases hk : k.val = getEntityIndex o
    · rw [if_pos ⟨hi, hk⟩]
      simp only [pickFirstMin]
      rw [if_pos hk]
    · rw [if_neg (fun hc => hk hc.2)]
      simp only [pickFirstMin]
      rw [if_neg hk]
  · rw [if_neg hi, if_neg (fun hc => hi hc.1)]
    simp only [pickFirstMin]

/-- Occlusion: with exactly two objects on the grid, both in beam `i` but
the first strictly closer and of a different kind, and the farther object
lying in no other beam, the farther object's kind appears nowhere in the
scan, while beam `i` encodes the closer object. -/
theorem lidar_occlusion (s : SEnv) (p1 p2 : ℤ × ℤ) (o1 o2 : WObj) (i : Fin 8)
    (hne : p1 ≠ p2)
    (hgrid : ∀ p, s.grid p
      = if p = p1 then some o1 else if p = p2 then some o2 else none)
    (hin1 : p1 ∈ scanCells s.width s.height) (hin2 : p2 ∈ scanCells s.width s.height)
    (hq1 : Qual s.agentPos p1 (beamAngle i))
    (hq2 : Qual s.agentPos p2 (beamAngle i))
    (hq2only : ∀ j : Fin 8, j ≠ i → ¬ Qual s.agentPos p2 (beamAngle j))
    (hdlt : distTo s.agentPos p1 < distTo s.agentPos p2)
    (hkne : getEntityIndex o1 ≠ getEntityIndex o2) :
    (∀ j k : Fin 8, k.val = getEntityIndex o2 → get_lidar_observation s j k = 0) ∧
    (∀ k : Fin 8, get_lidar_observation s i k
      = if k.val = getEntityIndex o1 then distTo s.agentPos p1 / s.width else 0) := by
  have hobj : objCells s = [(p1, o1), (p2, o2)] ∨ objCells s = [(p2, o2), (p1, o1)] :=
    filterMap_pair_support s.grid p1 p2 o1 o2 hne _ (nodup_scanCells _ _)
      hin1 hin2 (fun p _ => hgrid p)
  have hrowi : ∀ k : Fin 8, get_lidar_observation s i k
      = if k.val = getEntityIndex o1 then distTo s.agentPos p1 / s.width else 0 := by
    have hpick : scanSector s (beamAngle i)
        = some (distTo s.agentPos p1, getEntityIndex o1) := by
      rw [scanSector_eq_pick]
      unfold qualEntries
      rcases hobj with hobj | hobj <;> rw [hobj]
      · rw [List.filter_cons, if_pos (decide_eq_true hq1), List.filter_cons,
          if_pos (decide_eq_true hq2), List.filter_nil, List.map_cons, List.map_cons,
          List.map_nil]
        exact pickFirstMin_first [] [(distTo s.agentPos p2, getEntityIndex o2)] _
          (fun a ha => absurd ha (List.not_mem_nil a))
          (fun b hb => by rw [List.mem_singleton.1 hb]; exact hdlt.le)
      · rw [List.filter_cons, if_pos (decide_eq_true hq2), List.filter_cons,
          if_pos (decide_eq_true hq1), List.filter_nil, List.map_cons, List.map_cons,
          List.map_nil]
        exact pickFirstMin_first [(distTo s.agentPos p2, getEntityIndex o2)] [] _
          (fun a ha => by rw [List.mem_singleton.1 ha]; exact hdlt)
          (fun b hb => absurd hb (List.not_mem_nil b))
    intro k
    unfold get_lidar_observation
    rw [hpick]
  refine ⟨?_, hrowi⟩
  intro j k hk
  by_cases hji : j = i
  · subst hji
    rw [hrowi k, if_neg (fun hc => hkne (hc.symm.trans hk))]
  · have hq2j := hq2only j hji
    unfold get_lidar_observation
    rw [scanSector_eq_pick]
    by_cases hq1j : Qual s.agentPos p1 (beamAngle j)
    · have he : qualEntries s (beamAngle j)
          = [(distTo s.agentPos p1, getEntityIndex o1)] := by
        unfold qualEntries
        rcases hobj with hobj | hobj <;> rw [hobj]
        · rw [List.filter_cons, if_pos (decide_eq_true hq1j), List.filter_cons,
            if_neg (by simpa using hq2j), List.filter_nil, List.map_cons, List.map_nil]
        · rw [List.filter_cons, if_neg (by simpa using hq2j), List.filter_cons,
            if_pos (decide_eq_true hq1j), List.filter_nil, List.map_cons, List.map_nil]
      rw [he]
      simp only [pickFirstMin]
      rw [if_neg (fun hc => hkne (hc.symm.trans hk))]
    · have he : qualEntries s (beamAngle j) = [] := by
        unfold qualEntries
        rcases hobj with hobj | hobj <;> rw [hobj]
        · rw [List.filter_cons, if_neg (by simpa using hq1j), List.filter_cons,
            if_neg (by simpa using hq2j), List.filter_nil, List.map_nil]
        · rw [List.filter_cons, if_neg (by simpa using hq2j), List.filter_cons,
            if_neg (by simpa using hq1j), List.filter_nil, List.map_nil]
      rw [he]
      simp only [pickFirstMin]

/-- C5: (a) an object at Euclidean distance `t` directly in front of the
agent produces a non-zero sensor entry only in the beam aligned with the
agent's forward direction (beam `2 * dir` of the 8), in its entity slot,
with value `t / grid_width`; (b) an object lying in a beam behind a
strictly closer object of a different kind produces no entry at all, the
closer object being the one encoded. -/
theorem claim_C5_sensor :
    (∀ (s : SEnv) (t : ℤ) (o : WObj) (tgt : ℤ × ℤ),
      1 ≤ t →
      tgt = (s.agentPos.1 + t * (dirVec s.agentDir).1,
             s.agentPos.2 + t * (dirVec s.agentDir).2) →
      (∀ p, s.grid p = if p = tgt then some o else none) →
      0 ≤ tgt.1 → tgt.1 < (s.width : ℤ) → 0 ≤ tgt.2 → tgt.2 < (s.height : ℤ) →
      distTo s.agentPos tgt = (t : ℝ) ∧
      ∀ i k : Fin 8, get_lidar_observation s i k
        = if i.val = 2 * s.agentDir.val ∧ k.val = getEntityIndex o
          then (t : ℝ) / s.width else 0) ∧
    (∀ (s : SEnv) (p1 p2 : ℤ × ℤ) (o1 o2 : WObj) (i : Fin 8),
      p1 ≠ p2 →
      (∀ p, s.grid p = if p = p1 then some o1 else if p = p2 then some o2 else none) →
      p1 ∈ scanCells s.width s.height → p2 ∈ scanCells s.width s.height →
      Qual s.agentPos p1 (beamAngle i) → Qual s.agentPos p2 (beamAngle i) →
      (∀ j : Fin 8, j ≠ i → ¬ Qual s.agentPos p2 (beamAngle j)) →
      distTo s.agentPos p1 < distTo s.agentPos p2 →
      getEntityIndex o1 ≠ getEntityIndex o2 →
      (∀ j k : Fin 8, k.val = getEntityIndex o2 → get_lidar_observation s j k = 0) ∧
      (∀ k : Fin 8, get_lidar_observation s i k
        = if k.val = getEntityIndex o1
          then distTo s.agentPos p1 / s.width else 0)) :=
  ⟨fun s t o tgt ht htgt hgrid hb1 hb2 hb3 hb4 =>
      lidar_single_front s t o tgt ht htgt hgrid hb1 hb2 hb3 hb4,
   fun s p1 p2 o1 o2 i hne hgrid hin1 hin2 hq1 hq2 hq2only hdlt hkne =>
      lidar_occlusion s p1 p2 o1 o2 i hne hgrid hin1 hin2 hq1 hq2 hq2only hdlt hkne⟩

/-- A 6-by-6 scene with a single Tree three cells east of the agent. -/
def envC5A : SEnv :=
  { envInit0 with
    grid := fun p => if p = (4, 1) then some (WObj.resource ("Tree")) else none,
    agentPos := (1, 1), agentDir := 0 }

/-- An 8-by-6 scene with a Tree two cells east of the agent and an Iron
Ore five cells east, both on the east beam. -/
def envC5B : SEnv :=
  { envInit0 with
    width := 8,
    grid := fun p => if p = (3, 1) then some (WObj.resource ("Tree"))
            else if p = (6, 1) then some (WObj.resource ("Iron Ore")) else none,
    agentPos := (1, 1), agentDir := 0 }

/-- Witness for C5 at concrete scenes: the single Tree in front appears
only in beam 0 at slot 4 with value 3/6; in the two-object scene the
farther Iron Ore (slot 0) appears nowhere while beam 0 carries the closer
Tree. -/
theorem claim_C5_sensor_witness :
    distTo envC5A.agentPos (4, 1) = (3 : ℝ) ∧
    get_lidar_observation envC5A 0 4 = (3 : ℝ) / 6 ∧
    get_lidar_observation envC5A 1 4 = 0 ∧
    get_lidar_observation envC5A 0 0 = 0 ∧
    (∀ j k : Fin 8, k.val = 0 → get_lidar_observation envC5B j k = 0) ∧
    get_lidar_observation envC5B 0 4 = distTo envC5B.agentPos (3, 1) / 8 := by
  have hA := claim_C5_sensor.1 envC5A 3 (WObj.resource ("Tree")) (4, 1)
    (by norm_num) (by decide) (fun p => rfl) (by decide) (by decide) (by decide) (by decide)
  have hfq1 := front_dist_qual envC5B.agentPos 0 2 (by norm_num)
  have hfq2 := front_dist_qual envC5B.agentPos 0 5 (by norm_num)
  have hq1 : Qual envC5B.agentPos (3, 1) (beamAngle 0) := by
    have h2 := (hfq1.2 0).2 (by decide)
    simpa using h2
  have hq2 : Qual envC5B.agentPos (6, 1) (beamAngle 0) := by
    have h2 := (hfq2.2 0).2 (by decide)
    simpa using h2
  have hq2only : ∀ j : Fin 8, j ≠ (0 : Fin 8) →
      ¬ Qual envC5B.agentPos (6, 1) (beamAngle j) := by
    intro j hj hq
    have h2 := (hfq2.2 j).1 (by simpa using hq)
    exact hj (Fin.ext (by simpa using h2))
  have hd1 : distTo envC5B.agentPos (3, 1) = (2 : ℝ) := by
    have h2 := hfq1.1
    simpa using h2
  have hd2 : distTo envC5B.agentPos (6, 1) = (5 : ℝ) := by
    have h2 := hfq2.1
    simpa using h2
  have hB := claim_C5_sensor.2 envC5B (3, 1) (6, 1) (WObj.resource ("Tree"))
    (WObj.resource ("Iron Ore")) 0 (by decide) (fun p => rfl)
    ((mem_scanCells _ _ _).2 (by decide)) ((mem_scanCells _ _ _).2 (by decide))
    hq1 hq2 hq2only (by rw [hd1, hd2]; norm_num) (by decide)
  refine ⟨hA.1, ?_, ?_, ?_, ?_, ?_⟩
  · exact (hA.2 0 4).trans (if_pos (by decide))
  · exact (hA.2 1 4).trans (if_neg (by decide))
  · exact (hA.2 0 0).trans (if_neg (by decide))
  · intro j k hk
    exact hB.1 j k (by simpa using hk)
  · exact (hB.2 4).trans (if_pos (by decide))

/-- The wrapped angular difference is the plain difference when the latter
already lies in [-π, π). -/
theorem angleDiff_eq_self (θ α : ℝ) (h1 : -π ≤ θ - α) (h2 : θ - α < π) :
    angleDiff θ α = θ - α := by
  have hpi := Real.pi_pos
  unfold angleDiff
  have hfl : ⌊(θ - α + π) / (2 * π)⌋ = 0 := by
    rw [Int.floor_eq_iff]
    constructor
    · push_cast
      apply div_nonneg
      · linarith
      · linarith
    · push_cast
      rw [show ((0:ℝ) + 1) = 1 by norm_num, div_lt_one (by linarith)]
      linarith
  rw [hfl]
  push_cast
  ring

theorem pi_div_eight_le_arctan_three_quarters : π / 8 ≤ Real.arctan (3 / 4) := by
  have hpi := Real.pi_pos
  by_contra hlt
  push_neg at hlt
  have h0 : (0:ℝ) ≤ 2 * Real.arctan (3 / 4) := by
    have h3 := Real.arctan_strictMono.monotone (by norm_num : (0:ℝ) ≤ 3 / 4)
    rw [Real.arctan_zero] at h3
    linarith
  have h1 : 2 * Real.arctan (3 / 4) < π / 4 := by linarith
  have h2 : Real.tan (2 * Real.arctan (3 / 4)) < Real.tan (π / 4) :=
    Real.tan_lt_tan_of_nonneg_of_lt_pi_div_two h0 (by linarith) h1
  rw [Real.tan_pi_div_four, Real.tan_two_mul, Real.tan_arctan] at h2
  norm_num at h2

theorem arctan_three_quarters_le_pi_div_four : Real.arctan (3 / 4) ≤ π / 4 := by
  have h2 := Real.arctan_strictMono.monotone (by norm_num : (3:ℝ) / 4 ≤ 1)
  rwa [Real.arctan_one] at h2

theorem beamAngle_one : beamAngle 1 = π / 4 := by
  unfold beamAngle
  simp only [Fin.val_one]
  push_cast
  ring

theorem arctan_four_thirds : Real.arctan (4 / 3) = π / 2 - Real.arctan (3 / 4) := by
  have h2 := Real.arctan_inv_of_pos (by norm_num : (0:ℝ) < 3 / 4)
  rwa [show ((3:ℝ) / 4)⁻¹ = 4 / 3 by norm_num] at h2

theorem qual_vec_34 : Qual ((0:ℤ), (0:ℤ)) (3, 4) (beamAngle 1) := by
  have hpi := Real.pi_pos
  have hlb := pi_div_eight_le_arctan_three_quarters
  have hub := arctan_three_quarters_le_pi_div_four
  unfold Qual
  have hva : vecAngle ((0:ℤ), (0:ℤ)) (3, 4) = Real.arctan (4 / 3) := by
    unfold vecAngle atan2
    dsimp only
    norm_num
  rw [hva, beamAngle_one, arctan_four_thirds,
    angleDiff_eq_self _ _ (by linarith) (by linarith)]
  rw [abs_le]
  constructor <;> linarith

theorem qual_vec_43 : Qual ((0:ℤ), (0:ℤ)) (4, 3) (beamAngle 1) := by
  have hpi := Real.pi_pos
  have hlb := pi_div_eight_le_arctan_three_quarters
  have hub := arctan_three_quarters_le_pi_div_four
  unfold Qual
  have hva : vecAngle ((0:ℤ), (0:ℤ)) (4, 3) = Real.arctan (3 / 4) := by
    unfold vecAngle atan2
    dsimp only
    norm_num
  rw [hva, beamAngle_one,
    angleDiff_eq_self _ _ (by linarith) (by linarith)]
  rw [abs_le]
  constructor <;> linarith

theorem dist_34 : distTo ((0:ℤ), (0:ℤ)) (3, 4) = 5 := by
  unfold distTo
  dsimp only
  norm_num
  rw [show (25:ℝ) = 5 ^ 2 by norm_num]
  exact Real.sqrt_sq (by norm_num)

theorem dist_43 : distTo ((0:ℤ), (0:ℤ)) (4, 3) = 5 := by
  unfold distTo
  dsimp only
  norm_num
  rw [show (25:ℝ) = 5 ^ 2 by norm_num]
  exact Real.sqrt_sq (by norm_num)

/-- The 6-by-6 tie scene: the agent at the origin, a Tree at (3, 4) and an
Iron Ore at (4, 3), both at Euclidean distance 5 and both inside beam 1
(the diagonal). -/
def envC6 : SEnv :=
  { envInit0 with
    grid := fun p => if p = (3, 4) then some (WObj.resource ("Tree"))
            else if p = (4, 3) then some (WObj.resource ("Iron Ore")) else none,
    agentPos := (0, 0), agentDir := 0 }

/-- The row-major enumeration of grid cells named by the claim's tie-break
sentence, read literally: rows (`y`) in the outer loop, `x` in the inner
loop.  The code's scan (`scanCells`) instead iterates `x` in the outer
loop. -/
def rowMajorCells (w h : ℕ) : List (ℤ × ℤ) :=
  (List.range h).flatMap fun (y : ℕ) =>
    (List.range w).map fun (x : ℕ) => ((x : ℤ), (y : ℤ))

/-- The occupied cells in row-major order. -/
def rowMajorObjCells (s : SEnv) : List ((ℤ × ℤ) × WObj) :=
  (rowMajorCells s.width s.height).filterMap fun p => (s.grid p).map fun o => (p, o)

/-- The qualifying entries of one beam in row-major order. -/
noncomputable def rowMajorQualEntries (s : SEnv) (α : ℝ) : List (ℝ × ℕ) :=
  ((rowMajorObjCells s).filter fun po => decide (Qual s.agentPos po.1 α)).map
    fun po => (distTo s.agentPos po.1, getEntityIndex po.2)

theorem objCells_envC6 : objCells envC6
    = [((3, 4), WObj.resource ("Tree")), ((4, 3), WObj.resource ("Iron Ore"))] := by
  decide

theorem rowMajorObjCells_envC6 : rowMajorObjCells envC6
    = [((4, 3), WObj.resource ("Iron Ore")), ((3, 4), WObj.resource ("Tree"))] := by
  decide

theorem qualEntries_envC6 :
    qualEntries envC6 (beamAngle 1) = [((5:ℝ), 4), ((5:ℝ), 0)] := by
  unfold qualEntries
  rw [objCells_envC6]
  dsimp only [envC6, envInit0]
  rw [List.filter_cons, if_pos (decide_eq_true qual_vec_34),
    List.filter_cons, if_pos (decide_eq_true qual_vec_43), List.filter_nil,
    List.map_cons, List.map_cons, List.map_nil]
  dsimp only
  rw [dist_34, dist_43]
  rfl

theorem rowMajorQualEntries_envC6 :
    rowMajorQualEntries envC6 (beamAngle 1) = [((5:ℝ), 0), ((5:ℝ), 4)] := by
  unfold rowMajorQualEntries
  rw [rowMajorObjCells_envC6]
  dsimp only [envC6, envInit0]
  rw [List.filter_cons, if_pos (decide_eq_true qual_vec_43),
    List.filter_cons, if_pos (decide_eq_true qual_vec_34), List.filter_nil,
    List.map_cons, List.map_cons, List.map_nil]
  dsimp only
  rw [dist_34, dist_43]
  rfl

/-- The lidar row produced by one beam, expressed through the element the
first-min recursion picks. -/
theorem lidar_of_pick (s : SEnv) (i : Fin 8) (x : ℝ × ℕ)
    (h : pickFirstMin (qualEntries s (beamAngle i)) = some x) (k : Fin 8) :
    get_lidar_observation s i k = if k.val = x.2 then x.1 / s.width else 0 := by
  unfold get_lidar_observation
  rw [scanSector_eq_pick, h]

/-- Counterexample to C6 as stated: in the tie scene `envC6`, beam 1 holds
two qualifying objects at the same minimal distance 5.  The first one in
the row-major enumeration of grid cells is the Iron Ore at (4, 3) (slot
0), but the scan (which enumerates x in the outer loop) encodes the Tree
at (3, 4) (slot 4): slot 0 of beam 1 is zero and slot 4 carries 5/6. -/
theorem claim_C6_counterexample :
    qualEntries envC6 (beamAngle 1) = [((5:ℝ), 4), ((5:ℝ), 0)] ∧
    rowMajorQualEntries envC6 (beamAngle 1) = [((5:ℝ), 0), ((5:ℝ), 4)] ∧
    pickFirstMin (rowMajorQualEntries envC6 (beamAngle 1)) = some ((5:ℝ), 0) ∧
    get_lidar_observation envC6 1 0 = 0 ∧
    get_lidar_observation envC6 1 4 = (5:ℝ) / 6 ∧
    ((5:ℝ) / 6 ≠ 0) := by
  have hpk : pickFirstMin (qualEntries envC6 (beamAngle 1)) = some ((5:ℝ), 4) := by
    rw [qualEntries_envC6]
    exact pickFirstMin_first [] [((5:ℝ), 0)] ((5:ℝ), 4)
      (fun a ha => absurd ha (List.not_mem_nil a))
      (fun b hb => le_of_eq (by rw [List.mem_singleton.1 hb]))
  refine ⟨qualEntries_envC6, rowMajorQualEntries_envC6, ?_, ?_, ?_, by norm_num⟩
  · rw [rowMajorQualEntries_envC6]
    exact pickFirstMin_first [] [((5:ℝ), 4)] ((5:ℝ), 0)
      (fun a ha => absurd ha (List.not_mem_nil a))
      (fun b hb => le_of_eq (by rw [List.mem_singleton.1 hb]))
  · rw [lidar_of_pick envC6 1 ((5:ℝ), 4) hpk 0]
    norm_num
  · rw [lidar_of_pick envC6 1 ((5:ℝ), 4) hpk 4]
    norm_num [envC6, envInit0, Fin.val]
    rfl

/-- C6 (amended): within a beam, the entry kept by the scan is the first
qualifying object, in the scan's fixed x-outer/y-inner enumeration of grid
cells, that attains the minimal distance; in particular an exact-distance
tie is broken in favor of the earlier object of that enumeration (not of
the row-major one). -/
theorem claim_C6_amended (s : SEnv) (i : Fin 8) (A B : List (ℝ × ℕ)) (x : ℝ × ℕ)
    (hsplit : qualEntries s (beamAngle i) = A ++ x :: B)
    (hA : ∀ a ∈ A, x.1 < a.1) (hB : ∀ b ∈ B, x.1 ≤ b.1) :
    ∀ k : Fin 8, get_lidar_observation s i k
      = if k.val = x.2 then x.1 / s.width else 0 := by
  intro k
  unfold get_lidar_observation
  rw [scanSector_eq_pick, hsplit, pickFirstMin_first A B x hA hB]

/-- Witness for C6 (amended) at the tie scene: the first-encountered entry
(5, slot 4) wins over the equally distant later entry (5, slot 0). -/
theorem claim_C6_amended_witness :
    get_lidar_observation envC6 1 4 = (5:ℝ) / envC6.width ∧
    get_lidar_observation envC6 1 0 = 0 := by
  have h := claim_C6_amended envC6 1 [] [((5:ℝ), 0)] ((5:ℝ), 4) qualEntries_envC6
    (fun a ha => absurd ha (List.not_mem_nil a))
    (fun b hb => le_of_eq (by rw [List.mem_singleton.1 hb]))
  exact ⟨(h 4).trans (if_pos (by decide)), (h 0).trans (if_neg (by decide))⟩
